import Mathlib

/-!
Verification of read-exif-cli.

A shallow embedding of `utils/utils.go` and `cmd/main.go` and theorems about it.

Go strings are modelled by Lean strings (sequences of characters).  The only
characters the program inspects are ASCII (`.`, `/`, `,`, the double quote, CR, LF),
which never occur inside a multi-byte UTF-8 sequence, so scanning characters and
scanning bytes agree.  A Go `error` is modelled by its message; `nil` is `none`.
-/

namespace ReadExif

/-! ## Standard library: `path/filepath` -/

/-- The loop of `filepath.Ext` (Unix, where the only path separator is `/`):
`for i := len(path) - 1; i >= 0 && !os.IsPathSeparator(path[i]); i--`, returning
`path[i:]` at the first `.` met.  The argument `n` is `i + 1`. -/
def extLoop (path : List Char) : Nat → List Char
  | 0 => []
  | i + 1 =>
    if path.getD i ' ' = '/' then []
    else if path.getD i ' ' = '.' then path.drop i
    else extLoop path i

/-- Go: `filepath.Ext(path)`. -/
def Ext (path : String) : String := ⟨extLoop path.data path.data.length⟩

/-! ## `utils/utils.go` -/

/-- Go: `imageExtensions := []string{".jpg", ".jpeg", ".png"}`. -/
def imageExtensions : List String := [".jpg", ".jpeg", ".png"]

/-- The `for _, ext := range imageExtensions` loop of `IsImage`: `true` as soon as an
element equals `extension`. -/
def isImageLoop (extension : String) : List String → Bool
  | [] => false
  | ext :: rest => if ext = extension then true else isImageLoop extension rest

/-- Go: `utils.IsImage(path)`.  The first component is the returned boolean, the second
the lines printed on standard output (one diagnostic line when the path is rejected). -/
def IsImage (path : String) : Bool × List String :=
  let extension := Ext path
  if isImageLoop extension imageExtensions then (true, [])
  else (false, ["Not a valid image file format: " ++ path])

/-! ## Standard library: `encoding/binary`, and `go-exif`'s `exifcommon.Parser` -/

/-- A Go `error`, identified by its message. -/
abbrev Error := String

/-- A Go `byte`. -/
abbrev Byte := Fin 256

/-- Go: `binary.BigEndian.Uint32(b)`, that is
`uint32(b[3]) | uint32(b[2])<<8 | uint32(b[1])<<16 | uint32(b[0])<<24`
(every caller below passes at least four bytes). -/
def bigEndianUint32 (b : List Byte) : Nat :=
  ((b.getD 3 0).val ||| ((b.getD 2 0).val <<< 8) % 2 ^ 32
    ||| ((b.getD 1 0).val <<< 16) % 2 ^ 32 ||| ((b.getD 0 0).val <<< 24) % 2 ^ 32) % 2 ^ 32

/-- Go: `exifcommon.Rational`, two `uint32` fields. -/
structure Rational where
  Numerator : Nat
  Denominator : Nat
deriving DecidableEq, Repr

/-- Go: `exifcommon.ErrNotEnoughData`. -/
def ErrNotEnoughData : Error := "not enough data for type"

/-- Go: `(*exifcommon.Parser).ParseRationals(data, unitCount, binary.BigEndian)`: fails
with `ErrNotEnoughData` when `len(data) < 8 * unitCount`; otherwise unit `i` has
numerator `Uint32(data[i*8:])` and denominator `Uint32(data[i*8+4:])`. -/
def ParseRationals (data : List Byte) (unitCount : Nat) : List Rational × Option Error :=
  if data.length < 8 * unitCount then ([], some ErrNotEnoughData)
  else
    ((List.range unitCount).map fun i =>
        { Numerator := bigEndianUint32 (data.drop (i * 8)),
          Denominator := bigEndianUint32 (data.drop (i * 8 + 4)) },
      none)

/-! ## Standard library: `float64` division and `%v` formatting -/

/-- The `float64` values that `float64(n) / float64(d)` can take for `uint32` operands:
NaN, positive infinity, or a finite non-negative value `mant * 2 ^ exp` (normalised,
`2 ^ 52 ≤ mant < 2 ^ 53`, unless zero). -/
inductive Float64
  | nan
  | posInf
  | finite (mant : Nat) (exp : Int)
deriving DecidableEq, Repr

/-- The least `s` at or after the given one, within `fuel` steps, such that
`2 ^ 52 ≤ n * 2 ^ s / d`: the binary scaling that puts the quotient's significand in
`[2 ^ 52, 2 ^ 53)`.  For `uint32` operands it lies between `21` and `84`. -/
def normShift (n d : Nat) : Nat → Nat → Nat
  | 0, s => s
  | fuel + 1, s => if 2 ^ 52 * d ≤ n * 2 ^ s then s else normShift n d fuel (s + 1)

/-- Go: `float64(n) / float64(d)` for `uint32` values `n`, `d`.  Both conversions are
exact (32 bits fit the 53-bit significand).  IEEE 754 division: `0/0` is NaN, `x/0` is
`+Inf` for `x > 0`, `0/y` is `0`, and otherwise the exact quotient rounded to nearest,
ties to even (no overflow or underflow is possible in this range). -/
def float64Quot (n d : Nat) : Float64 :=
  if d = 0 then (if n = 0 then .nan else .posInf)
  else if n = 0 then .finite 0 (-1074)
  else
    let s := normShift n d 85 0
    let q := n * 2 ^ s / d
    let r := n * 2 ^ s % d
    let m := if d < 2 * r ∨ (2 * r = d ∧ q % 2 = 1) then q + 1 else q
    if m = 2 ^ 53 then .finite (2 ^ 52) (1 - (s : Int)) else .finite m (-(s : Int))

/-- Go: `strconv.decimalSlice`: the digits `d` (so `nd = len(d)`) and the position `dp`
of the decimal point; the value is `0.d[0]d[1]... * 10 ^ dp`. -/
structure decimalSlice where
  d : List Char
  dp : Int
deriving DecidableEq, Repr

/-- The decimal digits of `v`, most significant first, at most `fuel` of them (the empty
list for `0`): the digit loops of `strconv`. -/
def digitsOf : Nat → Nat → List Char → List Char
  | 0, _, acc => acc
  | fuel + 1, v, acc =>
    if v = 0 then acc else digitsOf fuel (v / 10) (Char.ofNat (v % 10 + 48) :: acc)

/-- Go: trim trailing zeros, `for d.nd > 0 && d.d[d.nd-1] == '0' { d.nd-- }`. -/
def trimZeros (ds : List Char) : List Char :=
  (ds.reverse.dropWhile (fun c => c = '0')).reverse

/-- Go: `ryuDigits(d, mant, mant, mant, true, false)`, the digits of an exact integer:
all its decimal digits, the decimal point after the last of them, trailing zeros
trimmed. -/
def ryuDigitsExact (mant : Nat) : decimalSlice :=
  let ds := digitsOf 20 mant []
  { d := trimZeros ds, dp := ds.length }

/-- Go: `strconv.ryuFtoaShortest(d, mant, exp, flt)` for `float64`: the shortest decimal
that rounds back to `mant * 2 ^ exp`.  Zero has no digits; an exact integer of at most 53
bits is printed digit by digit.  The general path (`computeBounds` and `ryuDigits` on the
rounding interval) is the parameter `ryu`. -/
def ryuFtoaShortest (ryu : Nat → Int → decimalSlice) (mant : Nat) (exp : Int) :
    decimalSlice :=
  if mant = 0 then { d := [], dp := 0 }
  else if exp ≤ 0 ∧ mant % 2 ^ (-exp).toNat = 0 then ryuDigitsExact (mant / 2 ^ (-exp).toNat)
  else ryu mant exp

/-- Go: `strconv.fmtE(dst, neg, d, prec, 'e')` for a non-negative value: `d.ddddde±dd`. -/
def fmtE (digs : decimalSlice) (prec : Nat) : List Char :=
  let first := [digs.d.getD 0 '0']
  let more :=
    if 0 < prec then
      let m := min digs.d.length (prec + 1)
      '.' :: ((digs.d.take m).drop 1 ++ List.replicate (prec + 1 - max m 1) '0')
    else []
  let exp : Int := if digs.d.length = 0 then 0 else digs.dp - 1
  let sign := if exp < 0 then '-' else '+'
  let e := exp.natAbs
  let expDigits :=
    if e < 10 then ['0', Char.ofNat (e + 48)]
    else if e < 100 then [Char.ofNat (e / 10 + 48), Char.ofNat (e % 10 + 48)]
    else [Char.ofNat (e / 100 + 48), Char.ofNat (e / 10 % 10 + 48), Char.ofNat (e % 10 + 48)]
  first ++ more ++ ['e', sign] ++ expDigits

/-- Go: `strconv.fmtF(dst, neg, d, prec)` for a non-negative value: `ddddddd.ddddd`. -/
def fmtF (digs : decimalSlice) (prec : Nat) : List Char :=
  let integer :=
    if 0 < digs.dp then
      let m := min digs.d.length digs.dp.toNat
      digs.d.take m ++ List.replicate (digs.dp.toNat - m) '0'
    else ['0']
  let fraction :=
    if 0 < prec then
      '.' :: (List.range prec).map fun i =>
        let j := digs.dp + (i : Int)
        if 0 ≤ j ∧ j < (digs.d.length : Int) then digs.d.getD j.toNat '0' else '0'
    else []
  integer ++ fraction

/-- Go: `strconv.formatDigits(dst, shortest = true, neg = false, digs, prec, 'g')` with
`prec = digs.nd`, as `genericFtoa` sets it for the shortest `%g`: `%e` when the decimal
exponent is below `-4` or at least `eprec = 6`, else `%f`. -/
def formatDigits (digs : decimalSlice) : List Char :=
  let prec := digs.d.length
  let eprec : Int := 6
  let exp := digs.dp - 1
  if exp < -4 ∨ eprec ≤ exp then fmtE digs (prec - 1)
  else
    let prec := if (digs.dp : Int) < (prec : Int) then digs.d.length else prec
    fmtF digs ((prec : Int) - digs.dp).toNat

/-- Go: `fmt.Sprintf("%v", x)` for a `float64` `x`, that is `strconv.AppendFloat(x, 'g',
-1, 64)` with the sign handling of `fmt`: `NaN`, `+Inf`, or the shortest `%g` form. -/
def sprintV (ryu : Nat → Int → decimalSlice) : Float64 → String
  | .nan => "NaN"
  | .posInf => "+Inf"
  | .finite mant exp => ⟨formatDigits (ryuFtoaShortest ryu mant exp)⟩

/-! ## `cmd/main.go`: `getGPSData` -/

/-- Go: `getGPSData(data)`.  Returns the string and the error (`none` is `nil`). -/
def getGPSData (ryu : Nat → Int → decimalSlice) (data : List Byte) : String × Option Error :=
  let locationInfo := ""
  match ParseRationals data 3 with
  | (_, some err) => ("", some err)
  | (rationals, none) =>
    (rationals.foldl
        (fun locationInfo rational =>
          locationInfo ++ (sprintV ryu (float64Quot rational.Numerator rational.Denominator) ++ " "))
        locationInfo,
      none)

/-! ## The libraries and the operating system -/

/-- The image and EXIF libraries `readEXIF` calls (`go-jpeg-image-structure`,
`go-png-image-structure`, `go-exif`), as functions of the file system's content: their
result types are abstract, and a Go `(value, error)` result is an `Except`. -/
structure ExifLib where
  SegmentList : Type
  ChunkSlice : Type
  IfdBuilder : Type
  BuilderTag : Type
  /-- Go: `jpg.NewJpegMediaParser().ParseFile(path)`. -/
  jpgParseFile : String → Except Error SegmentList
  /-- Go: `(*jpg.SegmentList).ConstructExifBuilder()`. -/
  jpgConstructExifBuilder : SegmentList → Except Error IfdBuilder
  /-- Go: `png.NewPngMediaParser().ParseFile(path)`. -/
  pngParseFile : String → Except Error ChunkSlice
  /-- Go: `(*png.ChunkSlice).ConstructExifBuilder()`. -/
  pngConstructExifBuilder : ChunkSlice → Except Error IfdBuilder
  /-- Go: `exif.GetOrCreateIbFromRootIb(rootIb, ifdPath)`. -/
  GetOrCreateIbFromRootIb : IfdBuilder → String → Except Error IfdBuilder
  /-- Go: `(*exif.IfdBuilder).FindTag(tagId)`. -/
  FindTag : IfdBuilder → Nat → Except Error BuilderTag
  /-- Go: `tag.Value().Bytes()`. -/
  valueBytes : BuilderTag → List Byte

/-- Go: `exif.TagLatitudeId`. -/
def TagLatitudeId : Nat := 0x0002

/-- Go: `exif.TagLongitudeId`. -/
def TagLongitudeId : Nat := 0x0004

/-- What `os.Stat(path)` returns: an error for which `os.IsNotExist` holds, another
error, or the file information (of which only `IsDir()` is used). -/
inductive StatResult
  | notExist (err : Error)
  | failed (err : Error)
  | info (isDir : Bool)

/-- Go: `Data`. -/
structure Data where
  FilePath : String
  Latitude : String
  Longitude : String
deriving DecidableEq, Repr

/-- Everything outside the program that a run depends on. -/
structure World where
  /-- The image and EXIF libraries over the current file system. -/
  lib : ExifLib
  /-- The general path of `strconv`'s shortest formatting (see `ryuFtoaShortest`). -/
  ryu : Nat → Int → decimalSlice
  /-- Go: `os.Stat`. -/
  stat : String → StatResult
  /-- Go: `filepath.Walk(root, fn)`: the `(path, err)` pairs it passes to `fn`, in
  order, as long as `fn` returns `nil`. -/
  walk : String → List (String × Option Error)
  /-- Go: the error of `os.Create(name)`. -/
  create : String → Option Error
  /-- Go: the error of the `k`-th call of `writer.Write` on the CSV writer (`0` is the
  header). -/
  csvWriteErr : Nat → Option Error
  /-- Go: the error of `tmpl.Execute(file, data)`. -/
  htmlExecute : List Data → Option Error

/-- What a run does that can be observed, in order; the calls of `readEXIF`,
`saveToCSV` and `saveToHTML` are recorded when they are entered. -/
inductive Event
  | stdout (text : String)
  | log (message : String)
  | usage
  | readEXIF (path : String)
  | saveToCSV (data : List Data)
  | saveToHTML (data : List Data)
  | created (name : String)
  | csvAccepted (text : String)
  | htmlRendered (data : List Data)
deriving DecidableEq, Repr

/-! ## `utils/utils.go`: `IsPathExists` -/

/-- Go: `utils.Dir`. -/
def Dir : String := "dir"

/-- Go: `utils.File`. -/
def File : String := "file"

/-- Go: `utils.IsPathExists(path)`. -/
def IsPathExists (stat : String → StatResult) (path : String) : String × Option Error :=
  match stat path with
  | .notExist _ => ("", some ("Path or file '" ++ path ++ "' does not exist\n"))
  | .failed err => ("", some err)
  | .info isDir => if isDir then (Dir, none) else (File, none)

/-! ## `cmd/main.go`: `readEXIF` -/

/-- The cases of `switch extension` in `readEXIF`. -/
inductive Case
  | jpeg
  | png
  | default
deriving DecidableEq, Repr

/-- Go: which case `switch extension { case ".jpg", ".jpeg": ... case ".png": ...
default: ... }` selects. -/
def switchExtension (extension : String) : Case :=
  if extension = ".jpg" ∨ extension = ".jpeg" then .jpeg
  else if extension = ".png" then .png
  else .default

/-- Go: the part of `readEXIF` after the `switch`, from `ifdPath := "IFD/GPSInfo"`. -/
def readGPSInfo (lib : ExifLib) (ryu : Nat → Int → decimalSlice) (rootIb : lib.IfdBuilder) :
    String × String × Option Error :=
  let ifdPath := "IFD/GPSInfo"
  match lib.GetOrCreateIbFromRootIb rootIb ifdPath with
  | .error err => ("", "", some err)
  | .ok ifdIb =>
    match lib.FindTag ifdIb TagLatitudeId with
    | .error err => ("", "", some err)
    | .ok latitudeTag =>
      match getGPSData ryu (lib.valueBytes latitudeTag) with
      | (_, some err) => ("", "", some err)
      | (latitudeInfo, none) =>
        match lib.FindTag ifdIb TagLongitudeId with
        | .error err => ("", "", some err)
        | .ok longitudeTag =>
          match getGPSData ryu (lib.valueBytes longitudeTag) with
          | (_, some err) => ("", "", some err)
          | (longitudeInfo, none) => (latitudeInfo, longitudeInfo, none)

/-- Go: `readEXIF(path)`. -/
def readEXIF (lib : ExifLib) (ryu : Nat → Int → decimalSlice) (path : String) :
    String × String × Option Error :=
  let extension := Ext path
  match switchExtension extension with
  | .jpeg =>
    match lib.jpgParseFile path with
    | .error err => ("", "", some err)
    | .ok sl =>
      match lib.jpgConstructExifBuilder sl with
      | .error err => ("", "", some err)
      | .ok rootIb => readGPSInfo lib ryu rootIb
  | .png =>
    match lib.pngParseFile path with
    | .error err => ("", "", some err)
    | .ok sl =>
      match lib.pngConstructExifBuilder sl with
      | .error err => ("", "", some err)
      | .ok rootIb => readGPSInfo lib ryu rootIb
  | .default => ("", "", some "invalid extension")

/-! ## Standard library: `encoding/csv` -/

/-- The double quote character. -/
def dquote : Char := Char.ofNat 34

/-- The line feed character. -/
def LF : Char := Char.ofNat 10

/-- The carriage return character. -/
def CR : Char := Char.ofNat 13

/-- Go: `unicode.IsSpace(r)`. -/
def IsSpace (r : Char) : Bool :=
  let n := r.toNat
  if n ≤ 0xFF then
    n = 0x09 ∨ n = 0x0A ∨ n = 0x0B ∨ n = 0x0C ∨ n = 0x0D ∨ n = 0x20 ∨ n = 0x85 ∨ n = 0xA0
  else
    n = 0x1680 ∨ (0x2000 ≤ n ∧ n ≤ 0x200A) ∨ n = 0x2028 ∨ n = 0x2029 ∨ n = 0x202F
      ∨ n = 0x205F ∨ n = 0x3000

/-- Go: `(*csv.Writer).fieldNeedsQuotes(field)` with `Comma = ','`. -/
def fieldNeedsQuotes (field : List Char) : Bool :=
  if field = [] then false
  else if field = [Char.ofNat 92, '.'] then true
  else if field.any (fun c => c = LF ∨ c = CR ∨ c = dquote ∨ c = ',') then true
  else IsSpace (field.headD ' ')

/-- Go: the loop `for len(field) > 0` of `(*csv.Writer).Write` with `UseCRLF = false`:
every character is copied, a double quote is written twice. -/
def writeQuoted : List Char → List Char
  | [] => []
  | c :: rest => if c = dquote then dquote :: dquote :: writeQuoted rest else c :: writeQuoted rest

/-- Go: what `(*csv.Writer).Write` writes for one field. -/
def writeField (field : List Char) : List Char :=
  if !fieldNeedsQuotes field then field
  else [dquote] ++ writeQuoted field ++ [dquote]

/-- Go: the loop `for n, field := range record` of `(*csv.Writer).Write`; `n` is the
index of the first field of the list. -/
def writeFields : Nat → List String → List Char
  | _, [] => []
  | n, field :: rest =>
    (if 0 < n then [','] else []) ++ writeField field.data ++ writeFields (n + 1) rest

/-- Go: what `(*csv.Writer).Write(record)` writes, with `Comma = ','` and
`UseCRLF = false`, when the underlying writes succeed. -/
def csvWrite (record : List String) : List Char :=
  writeFields 0 record ++ [LF]

/-! ## `cmd/main.go`: the report writers -/

/-- Go: `csvFilePath`. -/
def csvFilePath : String := "output.csv"

/-- How a function ends: it returns its `error`, or it calls `os.Exit(code)`. -/
inductive Return
  | ret (err : Option Error)
  | exit (code : Nat)
deriving DecidableEq, Repr

/-- Go: `saveToHTML(&data)`. -/
def saveToHTML (w : World) (data : List Data) : Option Error × List Event :=
  match w.create "output.html" with
  | some err => (some err, [])
  | none =>
    match w.htmlExecute data with
    | some err => (some err, [.created "output.html"])
    | none =>
      (none, [.created "output.html", .htmlRendered data,
        .stdout "HTML file created successfully!\n"])

/-- Go: the loop `for _, fileData := range data` of `saveToCSV`; `k` is the number of
`writer.Write` calls made so far, `text` what the writer has accepted, `logs` the log
lines so far. -/
def saveRows (w : World) : List Data → Nat → List Char → List Event → List Char × List Event
  | [], _, text, logs => (text, logs)
  | fileData :: rest, k, text, logs =>
    let row := [fileData.FilePath, fileData.Latitude, fileData.Longitude]
    match w.csvWriteErr k with
    | some err => saveRows w rest (k + 1) text (logs ++ [.log ("Error writing CSV row: " ++ err)])
    | none => saveRows w rest (k + 1) (text ++ csvWrite row) logs

/-- Go: `saveToCSV(data)`.  The event `csvAccepted` carries the text of the records the
CSV writer accepted, which is the content of the file when the writes reach it. -/
def saveToCSV (w : World) (data : List Data) : Return × List Event :=
  match w.create csvFilePath with
  | some err => (.ret (some err), [])
  | none =>
    let header := ["Image File Path", "GPS Latitude", "GPS Longitude"]
    match w.csvWriteErr 0 with
    | some _ => (.exit 1, [.created csvFilePath, .stdout "Failed to write csv header.\n"])
    | none =>
      let (text, logs) := saveRows w data 1 (csvWrite header) []
      (.ret none,
        [.created csvFilePath] ++ logs ++
          [.stdout "CSV file created successfully!\n", .csvAccepted ⟨text⟩])

/-! ## `cmd/main.go`: `main` -/

/-- The values of the flag variables after `flag.Parse()`. -/
structure Args where
  pathArg : String
  saveAsHTMLArg : Bool
  helpArg : Bool
deriving DecidableEq, Repr

/-- The end of a run: the exit status and what it did. -/
structure Outcome where
  exitCode : Nat
  trace : List Event
deriving DecidableEq, Repr

/-- Go: the function literal passed to `filepath.Walk` in `main`; `data` is the
captured slice.  Returns the slice, the events and the returned `error`. -/
def walkFn (w : World) (data : List Data) (path : String) (err : Option Error) :
    List Data × List Event × Option Error :=
  match err with
  | some err => (data, [], some err)
  | none =>
    match IsImage path with
    | (true, _) =>
      match readEXIF w.lib w.ryu path with
      | (_, _, some err) =>
        (data,
          [.readEXIF path, .log ("Failed to read EXIF data from " ++ path ++ ": " ++ err)],
          none)
      | (latitude, longitude, none) =>
        (data ++ [{ FilePath := path, Latitude := latitude, Longitude := longitude }],
          [.readEXIF path], none)
    | (false, printed) => (data, printed.map fun line => .stdout (line ++ "\n"), none)

/-- Go: `filepath.Walk` calling `walkFn` on the visits in turn, stopping at the first
error `walkFn` returns, which `Walk` then returns. -/
def Walk (w : World) : List (String × Option Error) → List Data → List Event →
    List Data × List Event × Option Error
  | [], data, trace => (data, trace, none)
  | (path, err) :: rest, data, trace =>
    match walkFn w data path err with
    | (data, events, some err) => (data, trace ++ events, some err)
    | (data, events, none) => Walk w rest data (trace ++ events)

/-- Go: the end of `main`, from `if saveAsHTMLArg`. -/
def saveReport (w : World) (a : Args) (data : List Data) (trace : List Event) : Outcome :=
  if a.saveAsHTMLArg then
    match saveToHTML w data with
    | (some err, events) =>
      ⟨1, trace ++ [.saveToHTML data] ++ events ++ [.log ("Error writing HTML file: " ++ err)]⟩
    | (none, events) => ⟨0, trace ++ [.saveToHTML data] ++ events⟩
  else
    match saveToCSV w data with
    | (.exit code, events) => ⟨code, trace ++ [.saveToCSV data] ++ events⟩
    | (.ret (some err), events) =>
      ⟨1, trace ++ [.saveToCSV data] ++ events ++ [.log ("Error writing csv file: " ++ err)]⟩
    | (.ret none, events) => ⟨0, trace ++ [.saveToCSV data] ++ events⟩

/-- Go: `main()`, after `flag.Parse()` has set the flag variables. -/
def main (w : World) (a : Args) : Outcome :=
  if a.pathArg = "" then ⟨1, [.stdout "Please provide a file-path for an image.\n"]⟩
  else if a.helpArg then ⟨0, [.usage]⟩
  else
    match IsPathExists w.stat a.pathArg with
    | (_, some _) => ⟨1, [.stdout "Please provide a valid file-path for an image.\n"]⟩
    | (pathType, none) =>
      let data : List Data := []
      if pathType = File then
        match IsImage a.pathArg with
        | (false, printed) => ⟨1, printed.map fun line => .stdout (line ++ "\n")⟩
        | (true, _) =>
          match readEXIF w.lib w.ryu a.pathArg with
          | (_, _, some err) => ⟨1, [.readEXIF a.pathArg, .stdout err]⟩
          | (latitude, longitude, none) =>
            saveReport w a
              (data ++ [{ FilePath := a.pathArg, Latitude := latitude, Longitude := longitude }])
              [.readEXIF a.pathArg]
      else
        match Walk w (w.walk a.pathArg) data [] with
        | (_, trace, some err) =>
          ⟨1, trace ++ [.log ("Error while walking through the directory: " ++ err)]⟩
        | (data, trace, none) => saveReport w a data trace

/-! ## Definitions for the statements: the GPS extractor -/

/-- The big-endian unsigned 32-bit integer in bytes `k .. k+3` of `data`, as a sum. -/
def uint32BE (data : List Byte) (k : Nat) : Nat :=
  (data.getD k 0).val * 2 ^ 24 + (data.getD (k + 1) 0).val * 2 ^ 16
    + (data.getD (k + 2) 0).val * 2 ^ 8 + (data.getD (k + 3) 0).val

/-- A formatter for inputs whose quotients are exact integers, infinite or NaN, which
never reach the general path of `ryuFtoaShortest`. -/
def noRyu : Nat → Int → decimalSlice := fun _ _ => { d := [], dp := 0 }

/-- The `i`-th component of the output of `getGPSData`: the `%v` rendering of the
quotient of the `i`-th rational of `data`. -/
def gpsComponent (ryu : Nat → Int → decimalSlice) (data : List Byte) (i : Nat) : String :=
  sprintV ryu (float64Quot (uint32BE data (8 * i)) (uint32BE data (8 * i + 4)))

/-- The binary64 value `m * 2 ^ e` nearest to `n / d`: `m * 2 ^ e` is a normal binary64
value (a significand of 53 bits, an exponent in range), the quotient lies in the binade
of `e`, `m * 2 ^ e` is within half a unit in the last place of the quotient, and in a
tie `m` is even. -/
def NearestDouble (n d m : Nat) (e : Int) : Prop :=
  2 ^ 52 ≤ m ∧ m < 2 ^ 53 ∧ -1074 ≤ e ∧ e ≤ 971 ∧
  (2 : ℚ) ^ 52 * 2 ^ e ≤ (n : ℚ) / d ∧ (n : ℚ) / d < 2 ^ 53 * 2 ^ e ∧
  |(m : ℚ) * 2 ^ e - (n : ℚ) / d| ≤ 2 ^ e / 2 ∧
  (|(m : ℚ) * 2 ^ e - (n : ℚ) / d| = 2 ^ e / 2 → m % 2 = 0)

/-- The value of `float64(n) / float64(d)` for `uint32` values, stated without the code:
NaN for `0/0`, positive infinity for `n/0` with `n > 0`, zero for `0/d`, and otherwise the
binary64 value nearest to `n / d`. -/
def IsQuotient (n d : Nat) (x : Float64) : Prop :=
  (d = 0 → x = if n = 0 then Float64.nan else Float64.posInf) ∧
  (d ≠ 0 → n = 0 → ∃ e, x = Float64.finite 0 e) ∧
  (d ≠ 0 → n ≠ 0 → ∃ m e, x = Float64.finite m e ∧ NearestDouble n d m e)

/-- The `%e` form of the digits `D` with decimal exponent `x`: `d.ddde±xx`, the exponent
with at least two digits. -/
def scientific (D : List Char) (x : Int) : List Char :=
  D.headD '0' :: (if D.tail = [] then [] else '.' :: D.tail) ++
    ['e', if x < 0 then '-' else '+'] ++
    (if x.natAbs < 10 then ['0'] else []) ++ Nat.toDigits 10 x.natAbs

/-- The `%f` form of the digits `D` with the decimal point after `dp` digits. -/
def positional (D : List Char) (dp : Int) : List Char :=
  if dp ≤ 0 then '0' :: '.' :: (List.replicate (-dp).toNat '0' ++ D)
  else if dp < D.length then D.take dp.toNat ++ '.' :: D.drop dp.toNat
  else D ++ List.replicate (dp.toNat - D.length) '0'

/-- The `%v` layout of a positive decimal `0.D * 10 ^ dp`, as `fmt` documents it for the
shortest `%g`: scientific when the decimal exponent `dp - 1` is below `-4` or at least
`6`, positional otherwise. -/
def layoutG (D : List Char) (dp : Int) : List Char :=
  if D = [] then ['0']
  else if dp - 1 < -4 ∨ 6 ≤ dp - 1 then scientific D (dp - 1)
  else positional D dp

/-- The `%v` rendering `c` of the quotient of the `uint32` values `n` and `d`, stated
without the code: `NaN` or `+Inf` for a zero denominator; for an integer quotient its
decimal digits without trailing zeros in the `%v` layout, which below `10 ^ 6` is its
decimal numeral; otherwise the `%v` layout of the digits that the shortest-formatting
routine `ryu` returns for the binary64 value nearest to `n / d` (when it returns at least
one digit and a decimal exponent of fewer than four digits, as it does for a double). -/
def RendersQuotient (ryu : Nat → Int → decimalSlice) (n d : Nat) (c : String) : Prop :=
  (d = 0 → c = if n = 0 then "NaN" else "+Inf") ∧
  (d ≠ 0 → d ∣ n →
    c = ⟨layoutG ((Nat.toDigits 10 (n / d)).rdropWhile (fun x => x = '0'))
          (Nat.toDigits 10 (n / d)).length⟩ ∧
    (n / d < 10 ^ 6 → c = toString (n / d))) ∧
  (d ≠ 0 → ¬ d ∣ n →
    ∃ m e, NearestDouble n d m e ∧
      ((ryu m e).d ≠ [] → ((ryu m e).dp - 1).natAbs < 1000 →
        c = ⟨layoutG (ryu m e).d (ryu m e).dp⟩))

/-- The least `j` at or after the given one, within `fuel` steps, with `a < b * 10 ^ j`. -/
def pow10Above (a b : Nat) : Nat → Nat → Nat
  | 0, j => j
  | fuel + 1, j => if a < b * 10 ^ j then j else pow10Above a b fuel (j + 1)

/-- The position of the decimal point of the positive rational `a / b`: the integer `dp`
with `10 ^ (dp - 1) ≤ a / b < 10 ^ dp`. -/
def decimalPoint (a b : Nat) : Int :=
  if b ≤ a then (pow10Above a b 400 0 : Int)
  else -(pow10Above (b - 1) (10 * a) 400 0 : Int)

/-- The shortest decimal in the rounding interval of the binary64 value `mant * 2 ^ exp`
with `nd` digits or more, trying `fuel` lengths: for each length the two decimals of
that length around the value are tried; when both round back to the value the nearer
wins (the even one in a tie).  The result is the integer digits `k` and the power `p`
with the decimal being `k * 10 ^ p`. -/
def shortestSearch (vn vd lon hin : Nat) (inclusive : Bool) (dp : Int) :
    Nat → Nat → Nat × Int
  | 0, nd => (vn * 10 ^ (nd - dp).toNat / (vd * 10 ^ (dp - nd).toNat), dp - nd)
  | fuel + 1, nd =>
    let p : Int := dp - nd
    let pn := 10 ^ p.toNat
    let pd := 10 ^ (-p).toNat
    let k := vn * pd / (vd * pn)
    let within (c : Nat) : Bool :=
      if inclusive then lon * pd ≤ c * pn * vd ∧ c * pn * vd ≤ hin * pd
      else lon * pd < c * pn * vd ∧ c * pn * vd < hin * pd
    let lowOk := within k
    let highOk := within (k + 1)
    if lowOk ∧ highOk then
      if 2 * vn * pd < (2 * k + 1) * pn * vd then (k, p)
      else if 2 * vn * pd = (2 * k + 1) * pn * vd then (if k % 2 = 0 then (k, p) else (k + 1, p))
      else (k + 1, p)
    else if lowOk then (k, p)
    else if highOk then (k + 1, p)
    else shortestSearch vn vd lon hin inclusive dp fuel (nd + 1)

/-- The documented contract of `strconv`'s shortest formatting, for the general path of
`ryuFtoaShortest`: the decimal with the fewest digits that rounds back to the binary64
value `mant * 2 ^ exp` (nearest to it among those), as digits without trailing zeros
and the position of the decimal point. -/
def shortestDecimal (mant : Nat) (exp : Int) : decimalSlice :=
  let up := 2 ^ exp.toNat
  let down := 2 ^ (-exp).toNat
  let vn := 4 * mant * up
  let vd := 4 * down
  let lon := (4 * mant - (if mant = 2 ^ 52 then 1 else 2)) * up
  let hin := (4 * mant + 2) * up
  let dp := decimalPoint vn vd
  let (k, p) := shortestSearch vn vd lon hin (mant % 2 = 0) dp 17 1
  let ds := Nat.toDigits 10 k
  { d := trimZeros ds, dp := p + ds.length }

/-! ## Definitions for the statements: `readEXIF` -/

/-- How `readEXIF` obtains the root builder of a path: by the JPEG parser for `.jpg` and
`.jpeg`, by the PNG parser for `.png`. -/
def parsedRoot (lib : ExifLib) (path : String) (rootIb : lib.IfdBuilder) : Prop :=
  (switchExtension (Ext path) = Case.jpeg ∧
      ∃ sl, lib.jpgParseFile path = .ok sl ∧ lib.jpgConstructExifBuilder sl = .ok rootIb) ∨
    (switchExtension (Ext path) = Case.png ∧
      ∃ sl, lib.pngParseFile path = .ok sl ∧ lib.pngConstructExifBuilder sl = .ok rootIb)

/-! ## Definitions for the statements: the traversal and `main` -/

/-- The record list an event hands to a report writer, if it is the call of one. -/
def Event.report : Event → Option (List Data)
  | .saveToCSV data => some data
  | .saveToHTML data => some data
  | _ => none

/-- The record lists handed to the report writers during a run, in order. -/
def reports (trace : List Event) : List (List Data) := trace.filterMap Event.report

/-- The record of a path: one when `IsImage` holds and `readEXIF` succeeds, carrying the
path and the two strings `readEXIF` returned. -/
def recordOf (w : World) (p : String) : Option Data :=
  if (IsImage p).1 = true then
    match readEXIF w.lib w.ryu p with
    | (latitude, longitude, none) =>
      some { FilePath := p, Latitude := latitude, Longitude := longitude }
    | (_, _, some _) => none
  else none

/-- A record that comes from a successful extraction on a path that passed the filter. -/
def goodRecord (w : World) (r : Data) : Prop :=
  (IsImage r.FilePath).1 = true ∧
    readEXIF w.lib w.ryu r.FilePath = (r.Latitude, r.Longitude, none)

/-- The events of the traversal: output, log lines, and calls of `readEXIF` on paths
that passed the filter. -/
def walkEvent : Event → Prop
  | .readEXIF p => (IsImage p).1 = true
  | .stdout _ => True
  | .log _ => True
  | _ => False

/-- The events of the report writers: file creation, content, output and log lines. -/
def saveEvent : Event → Prop
  | .created _ => True
  | .csvAccepted _ => True
  | .htmlRendered _ => True
  | .stdout _ => True
  | .log _ => True
  | _ => False

/-- A library over a directory `d` that holds two images with GPS tags (`40/1 20/1 0/1`
north, `74/1 0/1 21/1` west) and a corrupt JPEG. -/
def demoLib : ExifLib where
  SegmentList := String
  ChunkSlice := String
  IfdBuilder := String
  BuilderTag := List Byte
  jpgParseFile := fun path =>
    if path = "d/corrupt.jpg" then .error "invalid JPEG header" else .ok path
  jpgConstructExifBuilder := fun sl => .ok sl
  pngParseFile := fun path => .ok path
  pngConstructExifBuilder := fun sl => .ok sl
  GetOrCreateIbFromRootIb := fun rootIb _ => .ok rootIb
  FindTag := fun _ tagId =>
    if tagId = TagLatitudeId then
      .ok [0, 0, 0, 40, 0, 0, 0, 1, 0, 0, 0, 20, 0, 0, 0, 1, 0, 0, 0, 0, 0, 0, 0, 1]
    else .ok [0, 0, 0, 74, 0, 0, 0, 1, 0, 0, 0, 0, 0, 0, 0, 1, 0, 0, 0, 21, 0, 0, 0, 1]
  valueBytes := fun tag => tag

/-- A world in which `d` is a directory, every other path a file, and writing works. -/
def demoWorld : World where
  lib := demoLib
  ryu := noRyu
  stat := fun path => .info (path = "d")
  walk := fun _ =>
    [("d", none), ("d/a.jpg", none), ("d/corrupt.jpg", none), ("d/b.png", none),
      ("d/notes.txt", none)]
  create := fun _ => none
  csvWriteErr := fun _ => none
  htmlExecute := fun _ => none

/-! ## Definitions for the statements: the CSV report -/

/-- The three fields `saveToCSV` writes for a record. -/
def rowOf (d : Data) : List String := [d.FilePath, d.Latitude, d.Longitude]

/-- The header `saveToCSV` writes. -/
def csvHeader : List String := ["Image File Path", "GPS Latitude", "GPS Longitude"]

/-- The text of the rows of a record list, as the CSV writer writes them. -/
def rowsText : List Data → List Char
  | [] => []
  | d :: rest => csvWrite (rowOf d) ++ rowsText rest

/-- The number of lines of a text in which every line ends with a line feed. -/
def lineCount (text : List Char) : Nat := text.count LF

/-- The number of line feeds inside the fields of a record list. -/
def fieldLineFeeds : List Data → Nat
  | [] => 0
  | d :: rest =>
    d.FilePath.data.count LF + d.Latitude.data.count LF + d.Longitude.data.count LF
      + fieldLineFeeds rest

/-- The modes of reading comma-separated text by the RFC 4180 rules: at the start of a
field, inside a bare field, inside a quoted field, and just after a double quote met
inside a quoted field. -/
inductive ReadMode
  | fieldStart
  | bare
  | quoted
  | quoteSeen
deriving DecidableEq, Repr

/-- The state of the reader: the records read, the fields read of the current record,
the characters read of the current field, and the mode. -/
structure ReadState where
  records : List (List String)
  fields : List String
  field : List Char
  mode : ReadMode
deriving DecidableEq, Repr

/-- The current field ends, the record goes on. -/
def ReadState.endField (s : ReadState) : ReadState :=
  { records := s.records, fields := s.fields ++ [⟨s.field⟩], field := [], mode := .fieldStart }

/-- The current field and the current record end. -/
def ReadState.endRecord (s : ReadState) : ReadState :=
  { records := s.records ++ [s.fields ++ [⟨s.field⟩]], fields := [], field := [],
    mode := .fieldStart }

/-- The mode changes, nothing is read. -/
def ReadState.setMode (s : ReadState) (mode : ReadMode) : ReadState :=
  { records := s.records, fields := s.fields, field := s.field, mode := mode }

/-- A character joins the current field. -/
def ReadState.push (s : ReadState) (c : Char) (mode : ReadMode) : ReadState :=
  { records := s.records, fields := s.fields, field := s.field ++ [c], mode := mode }

/-- One step of the reader.  A double quote at the start of a field opens a quoted field;
inside it a doubled double quote is one double quote and a single one closes the field;
outside quoted fields a comma ends the field and a line feed ends the record. -/
def readChar (s : ReadState) (c : Char) : ReadState :=
  match s.mode with
  | .quoted =>
    if c = dquote then s.setMode .quoteSeen
    else s.push c .quoted
  | .quoteSeen =>
    if c = dquote then s.push dquote .quoted
    else if c = ',' then s.endField
    else if c = LF then s.endRecord
    else s.push c .bare
  | .fieldStart =>
    if c = dquote then s.setMode .quoted
    else if c = ',' then s.endField
    else if c = LF then s.endRecord
    else s.push c .bare
  | .bare =>
    if c = ',' then s.endField
    else if c = LF then s.endRecord
    else s.push c .bare

/-- The records that reading by the RFC 4180 rules finds in a text: the fields of each
row with their contents verbatim.  This is not `encoding/csv`'s `Reader`, which follows
the same quoting rules but also turns a CR LF inside a quoted field into LF. -/
def readCSV (text : List Char) : List (List String) :=
  (text.foldl readChar { records := [], fields := [], field := [], mode := .fieldStart }).records

/-! ## Theorems: the image filter -/

/-- Below a tail free of `.` and `/`, the loop of `Ext` only moves left. -/
theorem extLoop_skip (pre suf : List Char) (h : ∀ c ∈ suf, c ≠ '.' ∧ c ≠ '/') (k : Nat)
    (hk : k ≤ suf.length) :
    extLoop (pre ++ suf) (pre.length + k) = extLoop (pre ++ suf) pre.length := by
  induction k with
  | zero => rfl
  | succ k ih =>
    have hk2 : k < suf.length := hk
    have hget : (pre ++ suf).getD (pre.length + k) ' ' = suf[k] := by
      rw [List.getD_eq_getElem _ _ (by simp; omega)]
      rw [List.getElem_append_right (by omega)]
      simp
    have hmem := h suf[k] (List.getElem_mem hk2)
    show extLoop (pre ++ suf) (pre.length + k + 1) = _
    rw [extLoop, hget, if_neg hmem.2, if_neg hmem.1]
    exact ih (by omega)

/-- When the last `.` or `/` of a path is a `.`, `Ext` is the suffix from that `.`. -/
theorem extLoop_dot (pre suf : List Char) (h : ∀ c ∈ suf, c ≠ '.' ∧ c ≠ '/') :
    extLoop (pre ++ '.' :: suf) (pre ++ '.' :: suf).length = '.' :: suf := by
  have h1 := extLoop_skip (pre ++ ['.']) suf h suf.length (le_refl _)
  simp only [List.append_assoc, List.singleton_append, List.length_append,
    List.length_singleton] at h1
  have hlen : (pre ++ '.' :: suf).length = pre.length + 1 + suf.length := by
    simp; omega
  have hget : (pre ++ '.' :: suf).getD pre.length ' ' = '.' := by
    rw [List.getD_eq_getElem _ _ (by simp), List.getElem_append_right (le_refl _)]
    simp
  rw [hlen, h1, extLoop, hget]
  simp

/-- When the last `.` or `/` of a path is a `/`, `Ext` is empty. -/
theorem extLoop_slash (pre suf : List Char) (h : ∀ c ∈ suf, c ≠ '.' ∧ c ≠ '/') :
    extLoop (pre ++ '/' :: suf) (pre ++ '/' :: suf).length = [] := by
  have h1 := extLoop_skip (pre ++ ['/']) suf h suf.length (le_refl _)
  simp only [List.append_assoc, List.singleton_append, List.length_append,
    List.length_singleton] at h1
  have hlen : (pre ++ '/' :: suf).length = pre.length + 1 + suf.length := by
    simp; omega
  have hget : (pre ++ '/' :: suf).getD pre.length ' ' = '/' := by
    rw [List.getD_eq_getElem _ _ (by simp), List.getElem_append_right (le_refl _)]
    simp
  rw [hlen, h1, extLoop, hget]
  simp

/-- A path without `.` and `/` has an empty `Ext`. -/
theorem extLoop_none (suf : List Char) (h : ∀ c ∈ suf, c ≠ '.' ∧ c ≠ '/') :
    extLoop suf suf.length = [] := by
  have h1 := extLoop_skip [] suf h suf.length (le_refl _)
  simpa [extLoop] using h1

/-- Every path either has no `.` and no `/`, or splits at its last `.` or `/`. -/
theorem last_dot_or_slash (l : List Char) :
    (∀ c ∈ l, c ≠ '.' ∧ c ≠ '/') ∨
      ∃ pre c suf, l = pre ++ c :: suf ∧ (c = '.' ∨ c = '/') ∧ ∀ x ∈ suf, x ≠ '.' ∧ x ≠ '/' := by
  induction l with
  | nil => left; simp
  | cons a l ih =>
    rcases ih with hfree | ⟨pre, c, suf, hl, hc, hsuf⟩
    · by_cases ha : a = '.' ∨ a = '/'
      · right
        exact ⟨[], a, l, rfl, ha, hfree⟩
      · left
        intro x hx
        rcases List.mem_cons.mp hx with rfl | hx
        · exact ⟨fun h => ha (Or.inl h), fun h => ha (Or.inr h)⟩
        · exact hfree x hx
    · right
      exact ⟨a :: pre, c, suf, by rw [hl]; rfl, hc, hsuf⟩

/-- The boolean of `IsImage` is membership of the extension in the three literals. -/
theorem IsImage_fst (p : String) :
    (IsImage p).1 = true ↔ (Ext p = ".jpg" ∨ Ext p = ".jpeg" ∨ Ext p = ".png") := by
  unfold IsImage
  simp only [imageExtensions, isImageLoop]
  by_cases h1 : ".jpg" = Ext p
  · simp [h1.symm]
  · by_cases h2 : ".jpeg" = Ext p
    · simp [h2.symm]
    · by_cases h3 : ".png" = Ext p
      · simp [h3.symm]
      · simp [h1, h2, h3, Ne.symm h1, Ne.symm h2, Ne.symm h3, eq_comm]

/-- C1: for every path `p`, `IsImage(p)` is true if and only if `filepath.Ext(p)` is
exactly `.jpg`, `.jpeg` or `.png` (compared as strings, so case-sensitively), where
`Ext(p)` is the suffix of `p` from its last `.` when no `/` follows that `.`, and empty
when every `.` of `p` is followed by a `/` (or there is none); in particular `a.JPG`,
`a.gif`, `a.png.txt` and `jpg` are rejected. -/
theorem IsImage_iff_extension (p : String) :
    ((IsImage p).1 = true ↔ (Ext p = ".jpg" ∨ Ext p = ".jpeg" ∨ Ext p = ".png")) ∧
    (∀ pre suf, p.data = pre ++ '.' :: suf → (∀ c ∈ suf, c ≠ '.' ∧ c ≠ '/') →
      Ext p = ⟨'.' :: suf⟩) ∧
    ((∀ pre suf, p.data = pre ++ '.' :: suf → '/' ∈ suf) → Ext p = "") ∧
    (IsImage "a.JPG").1 = false ∧ (IsImage "a.gif").1 = false ∧
    (IsImage "a.png.txt").1 = false ∧ (IsImage "jpg").1 = false := by
  refine ⟨IsImage_fst p, ?_, ?_, by decide, by decide, by decide, by decide⟩
  · intro pre suf hp hsuf
    unfold Ext
    rw [hp, extLoop_dot pre suf hsuf]
  · intro hall
    unfold Ext
    rcases last_dot_or_slash p.data with hfree | ⟨pre, c, suf, hl, hc, hsuf⟩
    · rw [extLoop_none _ hfree]
    · rcases hc with rfl | rfl
      · exact absurd rfl (hsuf _ (hall pre suf hl)).2
      · rw [hl, extLoop_slash pre suf hsuf]

/-! ## Theorems: the GPS extractor -/

/-- The shifts and ors of `binary.BigEndian.Uint32` compute the big-endian sum. -/
theorem bigEndianUint32_eq (data : List Byte) (k : Nat) :
    bigEndianUint32 (data.drop k) = uint32BE data k := by
  unfold bigEndianUint32 uint32BE
  have e0 : (data.drop k).getD 0 0 = data.getD k 0 := by simp [List.getD_eq_getElem?_getD]
  have e1 : (data.drop k).getD 1 0 = data.getD (k + 1) 0 := by
    simp [List.getD_eq_getElem?_getD]
  have e2 : (data.drop k).getD 2 0 = data.getD (k + 2) 0 := by
    simp [List.getD_eq_getElem?_getD]
  have e3 : (data.drop k).getD 3 0 = data.getD (k + 3) 0 := by
    simp [List.getD_eq_getElem?_getD]
  rw [e0, e1, e2, e3]
  generalize data.getD k 0 = b0
  generalize data.getD (k + 1) 0 = b1
  generalize data.getD (k + 2) 0 = b2
  generalize data.getD (k + 3) 0 = b3
  have h0 := b0.isLt
  have h1 := b1.isLt
  have h2 := b2.isLt
  have h3 := b3.isLt
  simp only [Nat.shiftLeft_eq]
  have m2 : b2.val * 2 ^ 8 % 2 ^ 32 = 2 ^ 8 * b2.val := by omega
  have m1 : b1.val * 2 ^ 16 % 2 ^ 32 = 2 ^ 16 * b1.val := by omega
  have m0 : b0.val * 2 ^ 24 % 2 ^ 32 = 2 ^ 24 * b0.val := by omega
  rw [m2, m1, m0]
  have s2 : b3.val ||| 2 ^ 8 * b2.val = 2 ^ 8 * b2.val + b3.val := by
    rw [Nat.lor_comm]
    exact (Nat.mul_add_lt_is_or (by omega) _).symm
  have s1 : 2 ^ 8 * b2.val + b3.val ||| 2 ^ 16 * b1.val
      = 2 ^ 16 * b1.val + (2 ^ 8 * b2.val + b3.val) := by
    rw [Nat.lor_comm]
    exact (Nat.mul_add_lt_is_or (by omega) _).symm
  have s0 : 2 ^ 16 * b1.val + (2 ^ 8 * b2.val + b3.val) ||| 2 ^ 24 * b0.val
      = 2 ^ 24 * b0.val + (2 ^ 16 * b1.val + (2 ^ 8 * b2.val + b3.val)) := by
    rw [Nat.lor_comm]
    exact (Nat.mul_add_lt_is_or (by omega) _).symm
  rw [s2, s1, s0]
  omega

/-- On at least 24 bytes `getGPSData` succeeds, with the three formatted quotients each
followed by a space. -/
theorem getGPSData_of_le (ryu : Nat → Int → decimalSlice) (data : List Byte)
    (h : 24 ≤ data.length) :
    getGPSData ryu data =
      (sprintV ryu (float64Quot (uint32BE data 0) (uint32BE data 4)) ++ " "
        ++ sprintV ryu (float64Quot (uint32BE data 8) (uint32BE data 12)) ++ " "
        ++ sprintV ryu (float64Quot (uint32BE data 16) (uint32BE data 20)) ++ " ", none) := by
  have hp : ParseRationals data 3 =
      ([⟨uint32BE data 0, uint32BE data 4⟩, ⟨uint32BE data 8, uint32BE data 12⟩,
        ⟨uint32BE data 16, uint32BE data 20⟩], none) := by
    unfold ParseRationals
    rw [if_neg (by omega)]
    simp [List.range_succ, bigEndianUint32_eq]
  unfold getGPSData
  rw [hp]
  simp [String.append_assoc]

/-- C2: on the buffer `[0,0,0,40, 0,0,0,1, 0,0,0,20, 0,0,0,1, 0,0,0,0, 0,0,0,1]`
`getGPSData` returns the string `40 20 0 ` (with the trailing space) and a nil error. -/
theorem getGPSData_fixed_buffer (ryu : Nat → Int → decimalSlice) :
    getGPSData ryu [0, 0, 0, 40, 0, 0, 0, 1, 0, 0, 0, 20, 0, 0, 0, 1, 0, 0, 0, 0, 0, 0, 0, 1]
      = ("40 20 0 ", none) := by
  rfl

/-- `normShift` returns the first scaling at or after `s0` that reaches `2 ^ 52`. -/
theorem normShift_first (n d : Nat) :
    ∀ (fuel s0 t : Nat), s0 ≤ t → t < s0 + fuel → 2 ^ 52 * d ≤ n * 2 ^ t →
      s0 ≤ normShift n d fuel s0 ∧ normShift n d fuel s0 ≤ t ∧
      2 ^ 52 * d ≤ n * 2 ^ normShift n d fuel s0 ∧
      ∀ j, s0 ≤ j → j < normShift n d fuel s0 → ¬ 2 ^ 52 * d ≤ n * 2 ^ j := by
  intro fuel
  induction fuel with
  | zero => intro s0 t h1 h2 _; omega
  | succ fuel ih =>
    intro s0 t h1 h2 h3
    unfold normShift
    by_cases hP : 2 ^ 52 * d ≤ n * 2 ^ s0
    · rw [if_pos hP]
      exact ⟨le_refl _, h1, hP, fun j hj1 hj2 => by omega⟩
    · rw [if_neg hP]
      have hne : s0 ≠ t := by
        intro h; subst h; exact hP h3
      obtain ⟨a, b, c, e⟩ := ih (s0 + 1) t (by omega) (by omega) h3
      refine ⟨by omega, b, c, ?_⟩
      intro j hj1 hj2
      by_cases hj : j = s0
      · subst hj; exact hP
      · exact e j (by omega) hj2

/-- For `uint32` operands the scaled quotient lies in `[2 ^ 52, 2 ^ 53)`. -/
theorem normShift_range (n d : Nat) (hn : 0 < n) (hn2 : n < 2 ^ 32) (hd : 0 < d)
    (hd2 : d < 2 ^ 32) :
    2 ^ 52 * d ≤ n * 2 ^ normShift n d 85 0 ∧ n * 2 ^ normShift n d 85 0 < 2 ^ 53 * d ∧
      21 ≤ normShift n d 85 0 ∧ normShift n d 85 0 ≤ 84 := by
  have h84 : 2 ^ 52 * d ≤ n * 2 ^ 84 := by
    have : 2 ^ 52 * d ≤ 2 ^ 52 * 2 ^ 32 := Nat.mul_le_mul_left _ (le_of_lt hd2)
    have : 1 * 2 ^ 84 ≤ n * 2 ^ 84 := Nat.mul_le_mul_right _ hn
    norm_num at *
    omega
  obtain ⟨_, h2, h3, h4⟩ := normShift_first n d 85 0 84 (by omega) (by omega) h84
  generalize normShift n d 85 0 = s at *
  have hs21 : 21 ≤ s := by
    by_contra hlt
    have hs : s ≤ 20 := by omega
    have : (2:Nat) ^ s ≤ 2 ^ 20 := Nat.pow_le_pow_right (by norm_num) hs
    have h5 : n * 2 ^ s ≤ 2 ^ 32 * 2 ^ 20 := Nat.mul_le_mul (le_of_lt hn2) this
    have h6 : 2 ^ 52 * 1 ≤ 2 ^ 52 * d := Nat.mul_le_mul_left _ hd
    have h7 : n * 2 ^ s < 2 ^ 32 * 2 ^ 20 := by
      calc n * 2 ^ s ≤ n * 2 ^ 20 := Nat.mul_le_mul_left _ this
        _ < 2 ^ 32 * 2 ^ 20 := Nat.mul_lt_mul_of_pos_right hn2 (by norm_num)
    norm_num at *
    omega
  refine ⟨h3, ?_, hs21, h2⟩
  have hprev := h4 (s - 1) (by omega) (by omega)
  have hs : s = (s - 1) + 1 := by omega
  rw [hs, pow_succ]
  have : n * 2 ^ (s - 1) < 2 ^ 52 * d := by omega
  calc n * (2 ^ (s - 1) * 2) = 2 * (n * 2 ^ (s - 1)) := by ring
    _ < 2 * (2 ^ 52 * d) := by omega
    _ = 2 ^ 53 * d := by ring

/-- For `uint32` operands, positive: the quotient is a normalised significand `m` scaled
by `2 ^ (-s)`, where `m` is the integer nearest to `n * 2 ^ s / d`, ties to even. -/
theorem float64Quot_nat (n d : Nat) (hn : 0 < n) (hn2 : n < 2 ^ 32) (hd : 0 < d)
    (hd2 : d < 2 ^ 32) :
    ∃ m s : Nat, float64Quot n d = .finite m (-(s : Int)) ∧ 21 ≤ s ∧ s ≤ 84 ∧
      2 ^ 52 * d ≤ n * 2 ^ s ∧ n * 2 ^ s < 2 ^ 53 * d ∧ 2 ^ 52 ≤ m ∧ m < 2 ^ 53 ∧
      2 * (m * d) ≤ 2 * (n * 2 ^ s) + d ∧ 2 * (n * 2 ^ s) ≤ 2 * (m * d) + d ∧
      ((2 * (m * d) = 2 * (n * 2 ^ s) + d ∨ 2 * (n * 2 ^ s) = 2 * (m * d) + d) → m % 2 = 0) := by
  obtain ⟨h1, h2, h3, h4⟩ := normShift_range n d hn hn2 hd hd2
  unfold float64Quot
  rw [if_neg (by omega), if_neg (by omega)]
  dsimp only
  generalize normShift n d 85 0 = s at *
  have hdiv := Nat.div_add_mod (n * 2 ^ s) d
  have hmod := Nat.mod_lt (n * 2 ^ s) hd
  generalize hq : n * 2 ^ s / d = q at *
  generalize hr : n * 2 ^ s % d = r at *
  generalize hX : n * 2 ^ s = X at *
  -- d * q + r = X
  have hq1 : 2 ^ 52 ≤ q := by
    by_contra hlt
    have : q + 1 ≤ 2 ^ 52 := by omega
    have : d * (q + 1) ≤ d * 2 ^ 52 := Nat.mul_le_mul_left _ this
    have e1 : d * (q + 1) = d * q + d := by ring
    have e2 : d * 2 ^ 52 = 2 ^ 52 * d := by ring
    omega
  have hq2 : q < 2 ^ 53 := by
    by_contra hlt
    have : 2 ^ 53 ≤ q := by omega
    have : d * 2 ^ 53 ≤ d * q := Nat.mul_le_mul_left _ this
    have e2 : d * 2 ^ 53 = 2 ^ 53 * d := by ring
    omega
  -- no carry into the next binade
  have hA : d < 2 ^ s := by
    by_contra hlt
    have hle : 2 ^ s ≤ d := by omega
    have h5 : n * 2 ^ s ≤ n * d := Nat.mul_le_mul_left _ hle
    have h6 : n * d ≤ 2 ^ 32 * d := Nat.mul_le_mul_right _ (le_of_lt hn2)
    have h7 : 2 ^ 32 * d < 2 ^ 52 * d := Nat.mul_lt_mul_of_pos_right (by norm_num) hd
    omega
  have hcarry : q = 2 ^ 53 - 1 → 2 * r < d := by
    intro hqe
    by_contra hlt
    -- 0 < 2^53 * d - X ≤ d / 2, yet 2^53 * d - X is a positive multiple of 2^s or 2^53
    have hpos : X < 2 ^ 53 * d := h2
    have hgap : 2 ^ 53 * d - X ≤ d := by
      have e1 : d * q = 2 ^ 53 * d - d := by
        rw [hqe, Nat.mul_sub, Nat.mul_one, Nat.mul_comm]
      omega
    by_cases hs : s ≤ 53
    · have e53 : (2:Nat) ^ 53 = 2 ^ s * 2 ^ (53 - s) := by
        rw [← pow_add]; congr 1; omega
      have hdvd : 2 ^ s ∣ 2 ^ 53 * d - X := by
        apply Nat.dvd_sub'
        · rw [e53]; exact Dvd.dvd.mul_right (Dvd.intro _ rfl) _
        · rw [← hX]; exact Dvd.intro_left _ rfl
      have := Nat.le_of_dvd (by omega) hdvd
      omega
    · have e53 : (2:Nat) ^ s = 2 ^ 53 * 2 ^ (s - 53) := by
        rw [← pow_add]; congr 1; omega
      have hdvd : 2 ^ 53 ∣ 2 ^ 53 * d - X := by
        apply Nat.dvd_sub'
        · exact Dvd.intro _ rfl
        · rw [← hX, e53]; exact Dvd.dvd.mul_left (Dvd.intro _ rfl) _
      have := Nat.le_of_dvd (by omega) hdvd
      omega
  by_cases hup : d < 2 * r ∨ (2 * r = d ∧ q % 2 = 1)
  · rw [if_pos hup]
    have hq3 : q + 1 ≠ 2 ^ 53 := by
      intro h
      have := hcarry (by omega)
      omega
    rw [if_neg hq3]
    refine ⟨q + 1, s, rfl, h3, h4, ?_, ?_, by omega, by omega, ?_, ?_, ?_⟩
    · rw [hX]; exact h1
    · rw [hX]; exact h2
    · rw [hX]; have : (q + 1) * d = d * q + d := by ring
      omega
    · rw [hX]; have : (q + 1) * d = d * q + d := by ring
      omega
    · rw [hX]; have : (q + 1) * d = d * q + d := by ring
      omega
  · rw [if_neg hup]
    have hq3 : q ≠ 2 ^ 53 := by omega
    rw [if_neg hq3]
    refine ⟨q, s, rfl, h3, h4, ?_, ?_, hq1, hq2, ?_, ?_, ?_⟩
    · rw [hX]; exact h1
    · rw [hX]; exact h2
    · rw [hX]; have : q * d = d * q := by ring
      omega
    · rw [hX]; have : q * d = d * q := by ring
      omega
    · rw [hX]; have : q * d = d * q := by ring
      omega

/-- For positive `uint32` operands the model's quotient is the binary64 value nearest to
`n / d`. -/
theorem float64Quot_nearest (n d : Nat) (hn : 0 < n) (hn2 : n < 2 ^ 32) (hd : 0 < d)
    (hd2 : d < 2 ^ 32) :
    ∃ m e, float64Quot n d = .finite m e ∧ NearestDouble n d m e := by
  obtain ⟨m, s, hf, hs1, hs2, h1, h2, hm1, hm2, h3, h4, h5⟩ := float64Quot_nat n d hn hn2 hd hd2
  refine ⟨m, -(s : Int), hf, hm1, hm2, by omega, by omega, ?_, ?_, ?_, ?_⟩
  all_goals rw [zpow_neg, zpow_natCast]
  all_goals
    have hA : (0 : ℚ) < 2 ^ s := by positivity
    have hD : (0 : ℚ) < d := by exact_mod_cast hd
    have c1 : (2 : ℚ) ^ 52 * d ≤ n * 2 ^ s := by exact_mod_cast h1
    have c2 : (n : ℚ) * 2 ^ s < 2 ^ 53 * d := by exact_mod_cast h2
    have c3 : 2 * ((m : ℚ) * d) ≤ 2 * (n * 2 ^ s) + d := by exact_mod_cast h3
    have c4 : 2 * ((n : ℚ) * 2 ^ s) ≤ 2 * (m * d) + d := by exact_mod_cast h4
    have key : (m : ℚ) * (2 ^ s)⁻¹ - n / d = (m * d - n * 2 ^ s) / (2 ^ s * d) := by
      field_simp
      ring
  · rw [← div_eq_mul_inv, div_le_div_iff₀ hA hD]
    linarith
  · rw [← div_eq_mul_inv, div_lt_div_iff₀ hD hA]
    linarith
  · have hsimp : ((2 : ℚ) ^ s)⁻¹ * (2 ^ s * d) = d := by field_simp
    have habs : |(m : ℚ) * d - n * 2 ^ s| ≤ d / 2 := abs_le.mpr ⟨by linarith, by linarith⟩
    rw [key, abs_div, abs_of_pos (mul_pos hA hD), div_le_div_iff₀ (mul_pos hA hD) (by norm_num),
      hsimp]
    linarith
  · intro htie
    apply h5
    rw [key, abs_div, abs_of_pos (mul_pos hA hD), div_eq_iff (ne_of_gt (mul_pos hA hD))] at htie
    have hhalf : |(m : ℚ) * d - n * 2 ^ s| = d / 2 := by
      rw [htie]
      field_simp
      ring
    rcases (abs_eq (by positivity)).mp hhalf with hc | hc
    · left
      have : 2 * ((m : ℚ) * d) = 2 * (n * 2 ^ s) + d := by linarith
      exact_mod_cast this
    · right
      have : 2 * ((n : ℚ) * 2 ^ s) = 2 * (m * d) + d := by linarith
      exact_mod_cast this

/-- At most one binary64 value is the nearest to a quotient. -/
theorem NearestDouble_unique (n d m m2 : Nat) (e e2 : Int)
    (h : NearestDouble n d m e) (h2 : NearestDouble n d m2 e2) : m = m2 ∧ e = e2 := by
  obtain ⟨_, _, _, _, a1, a2, a3, a4⟩ := h
  obtain ⟨_, _, _, _, b1, b2, b3, b4⟩ := h2
  have hstep : ∀ x y : Int, x < y → (2 : ℚ) ^ 53 * 2 ^ x ≤ 2 ^ 52 * 2 ^ y := by
    intro x y hxy
    have h1 : (2 : ℚ) ^ (x + 1) ≤ 2 ^ y := zpow_le_zpow_right₀ (by norm_num) (by omega)
    have h2 : (2 : ℚ) ^ (x + 1) = 2 ^ x * 2 := by
      rw [zpow_add₀ (by norm_num), zpow_one]
    rw [h2] at h1
    have : (2 : ℚ) ^ 53 = 2 ^ 52 * 2 := by norm_num
    rw [this]
    nlinarith [zpow_pos (show (0 : ℚ) < 2 by norm_num) x]
  have he : e = e2 := by
    rcases lt_trichotomy e e2 with hlt | heq | hgt
    · have := hstep e e2 hlt
      linarith
    · exact heq
    · have := hstep e2 e hgt
      linarith
  subst he
  refine ⟨?_, rfl⟩
  have ht : (0 : ℚ) < 2 ^ e := zpow_pos (by norm_num) e
  generalize (2 : ℚ) ^ e = t at *
  generalize (n : ℚ) / d = v at *
  rw [abs_le] at a3 b3
  have main : ∀ (p q : Nat), p < q →
      -(t / 2) ≤ (p : ℚ) * t - v ∧ (p : ℚ) * t - v ≤ t / 2 →
      -(t / 2) ≤ (q : ℚ) * t - v ∧ (q : ℚ) * t - v ≤ t / 2 →
      (|(p : ℚ) * t - v| = t / 2 → p % 2 = 0) → (|(q : ℚ) * t - v| = t / 2 → q % 2 = 0) →
      False := by
    intro p q hlt hp hq tp tq
    have hc : (p : ℚ) + 1 ≤ q := by exact_mod_cast hlt
    have hm : ((p : ℚ) + 1) * t ≤ q * t := mul_le_mul_of_nonneg_right hc ht.le
    have hm' : (p : ℚ) * t + t ≤ q * t := by linarith
    have e1 : (p : ℚ) * t - v = -(t / 2) := by linarith [hp.1, hp.2, hq.1, hq.2]
    have e2 : (q : ℚ) * t - v = t / 2 := by linarith [hp.1, hp.2, hq.1, hq.2]
    have hq2 : (q : ℚ) * t = (p + 1) * t := by linarith
    have hq3 : (q : ℚ) = p + 1 := mul_right_cancel₀ (ne_of_gt ht) hq2
    have p1 := tp (by rw [e1, abs_neg, abs_of_pos (by positivity)])
    have p2 := tq (by rw [e2, abs_of_pos (by positivity)])
    have : q = p + 1 := by exact_mod_cast hq3
    omega
  by_contra hne
  rcases Nat.lt_or_gt_of_ne hne with hlt | hgt
  · exact main m m2 hlt a3 b3 a4 b4
  · exact main m2 m hgt b3 a3 b4 a4

set_option maxRecDepth 100000 in
/-- The exponent digits of the `%e` branch are the decimal numeral of the exponent, with
a leading zero below ten. -/
theorem expDigits_eq : ∀ e, e < 1000 →
    (if e < 10 then ['0', Char.ofNat (e + 48)]
      else if e < 100 then [Char.ofNat (e / 10 + 48), Char.ofNat (e % 10 + 48)]
      else [Char.ofNat (e / 100 + 48), Char.ofNat (e / 10 % 10 + 48), Char.ofNat (e % 10 + 48)])
    = (if e < 10 then ['0'] else []) ++ Nat.toDigits 10 e := by
  decide

/-- The `%e` branch of the model lays the digits out in the scientific form. -/
theorem fmtE_eq_scientific (D : List Char) (dp : Int) (hD : D ≠ [])
    (hb : (dp - 1).natAbs < 1000) :
    fmtE ⟨D, dp⟩ (D.length - 1) = scientific D (dp - 1) := by
  obtain ⟨c, rest, rfl⟩ := List.exists_cons_of_ne_nil hD
  unfold fmtE scientific
  have hexp := expDigits_eq (dp - 1).natAbs hb
  simp only [List.length_cons, Nat.add_sub_cancel, List.getD_cons_zero, List.headD_cons,
    List.tail_cons, Nat.succ_ne_zero, if_false, reduceCtorEq]
  rw [hexp]
  cases rest with
  | nil => simp
  | cons c2 rest2 => simp

/-- The `%f` branch of the model lays the digits out in the positional form. -/
theorem fmtF_eq_positional (D : List Char) (dp : Int) (hD : D ≠ []) :
    fmtF ⟨D, dp⟩ ((D.length : Int) - dp).toNat = positional D dp := by
  have hlen : 0 < D.length := List.length_pos.mpr hD
  unfold fmtF positional
  dsimp only
  by_cases h0 : dp ≤ 0
  · obtain ⟨k, rfl⟩ : ∃ k : Nat, dp = -(k : Int) := ⟨(-dp).toNat, by omega⟩
    have hprec : ((D.length : Int) - -(k : Int)).toNat = k + D.length := by omega
    rw [if_neg (by omega), if_pos h0, hprec, if_pos (by omega)]
    have hk : (- -(k : Int)).toNat = k := by omega
    rw [hk]
    show '0' :: '.' :: _ = _
    congr 2
    simp only [bind_pure_comp, List.map_eq_map, List.map_map]
    apply List.ext_getElem?
    intro i
    rw [List.getElem?_map]
    by_cases hi : i < k + D.length
    · rw [List.getElem?_range hi]
      simp only [Option.map_some', Function.comp_apply]
      by_cases hik : i < k
      · rw [List.getElem?_append_left (by simpa using hik), if_neg (by omega)]
        simp [hik]
      · rw [List.getElem?_append_right (by simpa using hik), if_pos (by omega)]
        have e1 : (-(k : Int) + (i : Int)).toNat = i - k := by omega
        have hlt : i - k < D.length := by omega
        simp only [List.length_replicate, e1]
        rw [List.getD_eq_getElem _ _ hlt, List.getElem?_eq_getElem hlt]
    · rw [List.getElem?_eq_none (by simpa using hi), List.getElem?_eq_none (by simp; omega)]
      rfl
  · obtain ⟨k, rfl⟩ : ∃ k : Nat, dp = (k : Int) := ⟨dp.toNat, by omega⟩
    have hk0 : 0 < k := by omega
    rw [if_pos (by omega), if_neg h0]
    simp only [Int.toNat_ofNat]
    by_cases hkn : k < D.length
    · have hprec : ((D.length : Int) - (k : Int)).toNat = D.length - k := by omega
      rw [hprec, if_pos (by omega), if_pos (by exact_mod_cast hkn), Nat.min_eq_right (by omega),
        Nat.sub_self]
      simp only [List.replicate_zero, List.append_nil]
      congr 2
      simp only [bind_pure_comp, List.map_eq_map, List.map_map]
      apply List.ext_getElem?
      intro i
      rw [List.getElem?_map, List.getElem?_drop]
      by_cases hi : i < D.length - k
      · rw [List.getElem?_range hi]
        simp only [Option.map_some', Function.comp_apply]
        rw [if_pos (by omega)]
        have e1 : ((k : Int) + (i : Int)).toNat = k + i := by omega
        have hlt : k + i < D.length := by omega
        rw [e1, List.getD_eq_getElem _ _ hlt, List.getElem?_eq_getElem hlt]
      · rw [List.getElem?_eq_none (by simpa using hi), List.getElem?_eq_none (by omega)]
        rfl
    · have hprec : ((D.length : Int) - (k : Int)).toNat = 0 := by omega
      rw [hprec, if_neg (by omega), if_neg (by omega), Nat.min_eq_left (by omega)]
      simp

/-- The model's `%v` layout of well-formed digits is the documented one. -/
theorem formatDigits_eq_layoutG (D : List Char) (dp : Int) (hD : D ≠ [])
    (hb : (dp - 1).natAbs < 1000) : formatDigits ⟨D, dp⟩ = layoutG D dp := by
  unfold formatDigits layoutG
  dsimp only
  rw [if_neg hD]
  by_cases hs : dp - 1 < -4 ∨ 6 ≤ dp - 1
  · rw [if_pos hs, if_pos hs, fmtE_eq_scientific D dp hD hb]
  · rw [if_neg hs, if_neg hs]
    have := fmtF_eq_positional D dp hD
    simpa using this

/-- Without input the digit loop returns what it has. -/
theorem digitsOf_zero (fuel : Nat) (acc : List Char) : digitsOf fuel 0 acc = acc := by
  cases fuel <;> simp [digitsOf]

/-- The digit loop of the model computes the digits the standard library prints. -/
theorem digitsOf_eq_toDigitsCore :
    ∀ (fuel v : Nat) (acc : List Char) (f2 : Nat), 0 < v → v < 10 ^ fuel → v < f2 →
      digitsOf fuel v acc = Nat.toDigitsCore 10 f2 v acc := by
  intro fuel
  induction fuel with
  | zero => intro v acc f2 h1 h2 _; simp at h2; omega
  | succ fuel ih =>
    intro v acc f2 h1 h2 h3
    obtain ⟨g, rfl⟩ : ∃ g, f2 = g + 1 := ⟨f2 - 1, by omega⟩
    have hc : Char.ofNat (v % 10 + 48) = Nat.digitChar (v % 10) := by
      have : v % 10 < 10 := Nat.mod_lt _ (by norm_num)
      interval_cases (v % 10) <;> rfl
    unfold digitsOf Nat.toDigitsCore
    rw [if_neg (by omega), hc]
    dsimp only
    by_cases hq : v / 10 = 0
    · rw [if_pos hq, hq, digitsOf_zero]
    · rw [if_neg hq]
      exact ih (v / 10) _ g (by omega) (by omega) (by omega)

/-- The digits of a positive integer, as the model computes them. -/
theorem digitsOf_eq_toDigits (v : Nat) (h1 : 0 < v) (h2 : v < 10 ^ 20) :
    digitsOf 20 v [] = Nat.toDigits 10 v :=
  digitsOf_eq_toDigitsCore 20 v [] (v + 1) h1 h2 (by omega)

/-- Trimming trailing zeros removes only zeros. -/
theorem trimZeros_append (ds : List Char) :
    trimZeros ds ++ List.replicate (ds.length - (trimZeros ds).length) '0' = ds := by
  unfold trimZeros
  have key : ∀ l : List Char,
      (l.dropWhile (fun c => decide (c = '0'))).reverse ++
        List.replicate (l.length - (l.dropWhile (fun c => decide (c = '0'))).length) '0'
        = l.reverse := by
    intro l
    induction l with
    | nil => simp
    | cons a l ih =>
      by_cases ha : a = '0'
      · subst ha
        rw [List.dropWhile_cons_of_pos (by simp)]
        have hle : (l.dropWhile (fun c => decide (c = '0'))).length ≤ l.length :=
          (List.dropWhile_sublist _).length_le
        have e : (('0' :: l).length - (l.dropWhile (fun c => decide (c = '0'))).length)
            = (l.length - (l.dropWhile (fun c => decide (c = '0'))).length) + 1 := by
          simp only [List.length_cons]; omega
        rw [e, List.replicate_succ', ← List.append_assoc, ih]
        simp
      · rw [List.dropWhile_cons_of_neg (by simpa using ha)]
        simp
  have := key ds.reverse
  simpa using this

/-- Trimmed digits are empty only when every digit is a zero. -/
theorem all_zero_of_trimZeros_nil (ds : List Char) (h : trimZeros ds = []) :
    ∀ c ∈ ds, c = '0' := by
  have := trimZeros_append ds
  rw [h, List.nil_append] at this
  intro c hc
  rw [← this] at hc
  exact (List.mem_replicate.mp hc).2

/-- The digits of a positive integer start with a digit that is not zero. -/
theorem digitsOf_head :
    ∀ (fuel v : Nat) (acc : List Char), 0 < v → v < 10 ^ fuel →
      ∃ c rest, digitsOf fuel v acc = c :: rest ∧ c ≠ '0' := by
  intro fuel
  induction fuel with
  | zero => intro v acc h1 h2; simp at h2; omega
  | succ fuel ih =>
    intro v acc h1 h2
    unfold digitsOf
    rw [if_neg (by omega)]
    by_cases hq : v / 10 = 0
    · rw [hq, digitsOf_zero]
      refine ⟨_, _, rfl, ?_⟩
      have h10 : v < 10 := by omega
      rw [Nat.mod_eq_of_lt h10]
      interval_cases v <;> decide
    · exact ih (v / 10) _ (by omega) (by omega)

/-- The digit loop gives at most `fuel` new digits. -/
theorem digitsOf_length :
    ∀ (fuel v : Nat) (acc : List Char), (digitsOf fuel v acc).length ≤ fuel + acc.length := by
  intro fuel
  induction fuel with
  | zero => intro v acc; simp [digitsOf]
  | succ fuel ih =>
    intro v acc
    unfold digitsOf
    by_cases hv : v = 0
    · rw [if_pos hv]; omega
    · rw [if_neg hv]
      have := ih (v / 10) (Char.ofNat (v % 10 + 48) :: acc)
      simp only [List.length_cons] at this
      omega

/-- For `uint32` operands with an integer quotient, the model divides exactly and
prints the digits of the quotient on the exact path. -/
theorem sprintV_integer (ryu : Nat → Int → decimalSlice) (n d : Nat) (hn : 0 < n)
    (hn2 : n < 2 ^ 32) (hd : 0 < d) (hd2 : d < 2 ^ 32) (hdvd : d ∣ n) :
    sprintV ryu (float64Quot n d) = ⟨formatDigits (ryuDigitsExact (n / d))⟩ := by
  obtain ⟨m, s, hf, _, _, h1, h2, hm1, hm2, h3, h4, _⟩ := float64Quot_nat n d hn hn2 hd hd2
  obtain ⟨k, rfl⟩ := hdvd
  have hk : d * k / d = k := Nat.mul_div_cancel_left k hd
  rw [hk, hf]
  have hmk : m = k * 2 ^ s := by
    have e1 : d * k * 2 ^ s = (k * 2 ^ s) * d := by ring
    rw [e1] at h3 h4
    by_contra hne
    rcases Nat.lt_or_gt_of_ne hne with hlt | hgt
    · have : (m + 1) * d ≤ (k * 2 ^ s) * d := Nat.mul_le_mul_right _ hlt
      have e2 : (m + 1) * d = m * d + d := by ring
      omega
    · have : (k * 2 ^ s + 1) * d ≤ m * d := Nat.mul_le_mul_right _ hgt
      have e2 : (k * 2 ^ s + 1) * d = k * 2 ^ s * d + d := by ring
      omega
  unfold sprintV ryuFtoaShortest
  dsimp only
  have hpos : 0 < 2 ^ s := by positivity
  have hm0 : m ≠ 0 := by omega
  have hs : (- -(s : Int)).toNat = s := by omega
  rw [if_neg hm0, hs, if_pos ⟨by omega, by rw [hmk]; exact Nat.mul_mod_left _ _⟩, hmk,
    Nat.mul_div_cancel _ hpos]

/-- For `uint32` operands whose quotient is not an integer, the model prints the digits
of the general path for the binary64 value nearest to the quotient. -/
theorem sprintV_fraction (ryu : Nat → Int → decimalSlice) (n d : Nat) (hn2 : n < 2 ^ 32)
    (hd : 0 < d) (hd2 : d < 2 ^ 32) (hdvd : ¬ d ∣ n) :
    ∃ m e, NearestDouble n d m e ∧
      sprintV ryu (float64Quot n d) = ⟨formatDigits (ryu m e)⟩ := by
  have hn : 0 < n := by
    rcases Nat.eq_zero_or_pos n with h | h
    · subst h; exact absurd (dvd_zero d) hdvd
    · exact h
  obtain ⟨m, e, hf, hnear⟩ := float64Quot_nearest n d hn hn2 hd hd2
  obtain ⟨m2, s, hf2, _, _, h1, h2, hm1, hm2, h3, h4, _⟩ := float64Quot_nat n d hn hn2 hd hd2
  have hme : m = m2 ∧ e = -(s : Int) := by
    rw [hf] at hf2
    cases hf2
    exact ⟨rfl, rfl⟩
  obtain ⟨rfl, rfl⟩ := hme
  refine ⟨m, -(s : Int), hnear, ?_⟩
  rw [hf]
  unfold sprintV ryuFtoaShortest
  dsimp only
  have hs : (- -(s : Int)).toNat = s := by omega
  have hds : d < 2 ^ s := by
    by_contra hlt
    have hle : 2 ^ s ≤ d := by omega
    have h5 : n * 2 ^ s ≤ n * d := Nat.mul_le_mul_left _ hle
    have h6 : n * d ≤ 2 ^ 32 * d := Nat.mul_le_mul_right _ (le_of_lt hn2)
    have h7 : 2 ^ 32 * d < 2 ^ 52 * d := Nat.mul_lt_mul_of_pos_right (by norm_num) hd
    omega
  have hnot : ¬ (-(s : Int) ≤ 0 ∧ m % 2 ^ s = 0) := by
    rintro ⟨_, hmod⟩
    obtain ⟨j, rfl⟩ := Nat.dvd_of_mod_eq_zero hmod
    apply hdvd
    -- `2 ^ s * |j * d - n| ≤ d / 2 < 2 ^ s` forces `j * d = n`
    have e1 : 2 ^ s * j * d = 2 ^ s * (j * d) := by ring
    have e2 : n * 2 ^ s = 2 ^ s * n := by ring
    rw [e1, e2] at h3 h4
    have hjn : j * d = n := by
      by_contra hne
      rcases Nat.lt_or_gt_of_ne hne with hlt | hgt
      · have : 2 ^ s * (j * d + 1) ≤ 2 ^ s * n := Nat.mul_le_mul_left _ hlt
        have e3 : 2 ^ s * (j * d + 1) = 2 ^ s * (j * d) + 2 ^ s := by ring
        omega
      · have : 2 ^ s * (n + 1) ≤ 2 ^ s * (j * d) := Nat.mul_le_mul_left _ hgt
        have e3 : 2 ^ s * (n + 1) = 2 ^ s * n + 2 ^ s := by ring
        omega
    exact Dvd.intro_left j hjn
  rw [if_neg (by omega), hs, if_neg hnot]

/-- The `%v` rendering of a positive integer on the exact path. -/
theorem formatDigits_exact (k : Nat) (hk : 0 < k) (hk2 : k < 2 ^ 32) :
    formatDigits (ryuDigitsExact k) =
      layoutG ((Nat.toDigits 10 k).rdropWhile (fun x => x = '0')) (Nat.toDigits 10 k).length ∧
    (k < 10 ^ 6 → formatDigits (ryuDigitsExact k) = Nat.toDigits 10 k) := by
  have hk3 : k < 10 ^ 20 := by
    have : (2:Nat) ^ 32 < 10 ^ 20 := by norm_num
    omega
  have hds := digitsOf_eq_toDigits k hk hk3
  obtain ⟨c, rest, hcr, hc0⟩ := digitsOf_head 20 k [] hk hk3
  have hlen := digitsOf_length 20 k []
  unfold ryuDigitsExact
  dsimp only
  rw [hds] at hcr hlen ⊢
  have htrim : trimZeros (Nat.toDigits 10 k) =
      (Nat.toDigits 10 k).rdropWhile (fun x => x = '0') := rfl
  have hne : trimZeros (Nat.toDigits 10 k) ≠ [] := by
    intro h
    have := all_zero_of_trimZeros_nil _ h c (by rw [hcr]; exact List.mem_cons_self _ _)
    exact hc0 this
  have hpos : 0 < (Nat.toDigits 10 k).length := by rw [hcr]; simp
  have hfmt := formatDigits_eq_layoutG (trimZeros (Nat.toDigits 10 k))
    ((Nat.toDigits 10 k).length : Int) hne (by simp only [List.length_nil] at hlen; omega)
  refine ⟨by rw [hfmt, htrim], ?_⟩
  intro hk6
  have h6 : (Nat.toDigits 10 k).length ≤ 6 := by
    have e := digitsOf_eq_toDigitsCore 6 k [] (k + 1) hk hk6 (by omega)
    have l := digitsOf_length 6 k []
    unfold Nat.toDigits
    rw [← e]
    simpa using l
  have hle : (trimZeros (Nat.toDigits 10 k)).length ≤ (Nat.toDigits 10 k).length := by
    have := congrArg List.length (trimZeros_append (Nat.toDigits 10 k))
    simp only [List.length_append, List.length_replicate] at this
    omega
  rw [hfmt]
  unfold layoutG positional
  rw [if_neg hne, if_neg (by omega), if_neg (by omega), if_neg (by omega)]
  simp only [Int.toNat_ofNat]
  exact trimZeros_append _

/-- The model's rendering of a `uint32` quotient is the specified one. -/
theorem sprintV_renders (ryu : Nat → Int → decimalSlice) (n d : Nat) (hn2 : n < 2 ^ 32)
    (hd2 : d < 2 ^ 32) : RendersQuotient ryu n d (sprintV ryu (float64Quot n d)) := by
  refine ⟨?_, ?_, ?_⟩
  · intro hd
    subst hd
    by_cases hn : n = 0 <;> simp [float64Quot, sprintV, hn]
  · intro hd hdvd
    have hd0 : 0 < d := Nat.pos_of_ne_zero hd
    rcases Nat.eq_zero_or_pos n with hn | hn
    · subst hn
      have hz : sprintV ryu (float64Quot 0 d) = "0" := by
        simp [float64Quot, hd, sprintV, ryuFtoaShortest, formatDigits, fmtF]
      rw [hz]
      constructor
      · have : (0 : Nat) / d = 0 := Nat.zero_div d
        rw [this]
        decide
      · intro _
        have : (0 : Nat) / d = 0 := Nat.zero_div d
        rw [this]
        decide
    · have hk : 0 < n / d := Nat.div_pos (Nat.le_of_dvd hn hdvd) hd0
      have hk2 : n / d < 2 ^ 32 := lt_of_le_of_lt (Nat.div_le_self n d) hn2
      obtain ⟨e1, e2⟩ := formatDigits_exact (n / d) hk hk2
      rw [sprintV_integer ryu n d hn hn2 hd0 hd2 hdvd]
      constructor
      · rw [e1]
      · intro h6
        rw [e2 h6]
        rfl
  · intro hd hdvd
    have hd0 : 0 < d := Nat.pos_of_ne_zero hd
    obtain ⟨m, e, hnear, hs⟩ := sprintV_fraction ryu n d hn2 hd0 hd2 hdvd
    refine ⟨m, e, hnear, ?_⟩
    intro hD hb
    rw [hs]
    have := formatDigits_eq_layoutG (ryu m e).d (ryu m e).dp hD hb
    rw [← this]

/-- The model's division of `uint32` values is the IEEE 754 one. -/
theorem float64Quot_isQuotient (n d : Nat) (hn2 : n < 2 ^ 32) (hd2 : d < 2 ^ 32) :
    IsQuotient n d (float64Quot n d) := by
  refine ⟨?_, ?_, ?_⟩
  · intro hd
    subst hd
    by_cases hn : n = 0 <;> simp [float64Quot, hn]
  · intro hd hn
    exact ⟨-1074, by simp [float64Quot, hd, hn]⟩
  · intro hd hn
    exact float64Quot_nearest n d (Nat.pos_of_ne_zero hn) hn2 (Nat.pos_of_ne_zero hd) hd2

/-- A big-endian 32-bit integer is below `2 ^ 32`. -/
theorem uint32BE_lt (data : List Byte) (k : Nat) : uint32BE data k < 2 ^ 32 := by
  unfold uint32BE
  have h0 := (data.getD k 0).isLt
  have h1 := (data.getD (k + 1) 0).isLt
  have h2 := (data.getD (k + 2) 0).isLt
  have h3 := (data.getD (k + 3) 0).isLt
  omega

/-- C3: on every 24-byte input `getGPSData` returns a nil error and the concatenation,
for `i = 0, 1, 2` in that order, of the `%v` rendering of `float64(n_i) / float64(d_i)`
followed by one space, where `n_i` and `d_i` are the big-endian unsigned 32-bit integers
in bytes `8i .. 8i+3` and `8i+4 .. 8i+7`: three separate unsigned values.  Each quotient
is the IEEE 754 one (NaN, `+Inf`, zero, or the binary64 value nearest to `n_i / d_i`),
and each rendering is the specified one: `NaN`, `+Inf`, the numeral of an integer
quotient (below `10 ^ 6`; its digits in scientific form from there on), or the `%v`
layout of the shortest digits of the nearest binary64 value. -/
theorem getGPSData_three_quotients (ryu : Nat → Int → decimalSlice) (data : List Byte)
    (h : data.length = 24) :
    getGPSData ryu data =
      (sprintV ryu (float64Quot (uint32BE data 0) (uint32BE data 4)) ++ " "
        ++ sprintV ryu (float64Quot (uint32BE data 8) (uint32BE data 12)) ++ " "
        ++ sprintV ryu (float64Quot (uint32BE data 16) (uint32BE data 20)) ++ " ", none) ∧
    ∀ i : Fin 3,
      IsQuotient (uint32BE data (8 * i.val)) (uint32BE data (8 * i.val + 4))
        (float64Quot (uint32BE data (8 * i.val)) (uint32BE data (8 * i.val + 4))) ∧
      RendersQuotient ryu (uint32BE data (8 * i.val)) (uint32BE data (8 * i.val + 4))
        (sprintV ryu (float64Quot (uint32BE data (8 * i.val)) (uint32BE data (8 * i.val + 4)))) :=
  ⟨getGPSData_of_le ryu data (by omega), fun i =>
    ⟨float64Quot_isQuotient _ _ (uint32BE_lt data _) (uint32BE_lt data _),
      sprintV_renders ryu _ _ (uint32BE_lt data _) (uint32BE_lt data _)⟩⟩

/-- C3 at the buffers of the rationals `4620/100`, `100/4`, `1/3` and `1000000/1`,
`4294967295/1`, `1/1000000`, with the shortest digits of the documented contract: the
outputs are `46.2 25 0.3333333333333333 ` and `1e+06 4.294967295e+09 1e-06 `. -/
theorem getGPSData_three_quotients_witness :
    ([0, 0, 18, 12, 0, 0, 0, 100, 0, 0, 0, 100, 0, 0, 0, 4, 0, 0, 0, 1, 0, 0, 0, 3] :
        List Byte).length = 24 ∧
    getGPSData shortestDecimal
        [0, 0, 18, 12, 0, 0, 0, 100, 0, 0, 0, 100, 0, 0, 0, 4, 0, 0, 0, 1, 0, 0, 0, 3] =
      ("46.2 25 0.3333333333333333 ", none) ∧
    getGPSData shortestDecimal
        [0, 15, 66, 64, 0, 0, 0, 1, 255, 255, 255, 255, 0, 0, 0, 1, 0, 0, 0, 1, 0, 15, 66, 64] =
      ("1e+06 4.294967295e+09 1e-06 ", none) :=
  ⟨by decide,
    (getGPSData_three_quotients shortestDecimal
      [0, 0, 18, 12, 0, 0, 0, 100, 0, 0, 0, 100, 0, 0, 0, 4, 0, 0, 0, 1, 0, 0, 0, 3]
      (by decide)).1.trans (by decide),
    (getGPSData_three_quotients shortestDecimal
      [0, 15, 66, 64, 0, 0, 0, 1, 255, 255, 255, 255, 0, 0, 0, 1, 0, 0, 0, 1, 0, 15, 66, 64]
      (by decide)).1.trans (by decide)⟩

/-- C4: on every 24-byte input whose `i`-th denominator is zero (`i = 0, 1, 2`),
`getGPSData` returns a nil error and the three components each followed by a space, and
the `i`-th quotient is not a finite number: it is NaN, rendered `NaN`, when the numerator
is zero, and positive infinity, rendered `+Inf`, when the numerator is not zero. -/
theorem getGPSData_zero_denominator (ryu : Nat → Int → decimalSlice) (data : List Byte)
    (h : data.length = 24) (i : Fin 3) (hd : uint32BE data (8 * i.val + 4) = 0) :
    getGPSData ryu data =
      (gpsComponent ryu data 0 ++ " " ++ gpsComponent ryu data 1 ++ " "
        ++ gpsComponent ryu data 2 ++ " ", none) ∧
    float64Quot (uint32BE data (8 * i.val)) (uint32BE data (8 * i.val + 4)) =
      (if uint32BE data (8 * i.val) = 0 then Float64.nan else Float64.posInf) ∧
    gpsComponent ryu data i.val = (if uint32BE data (8 * i.val) = 0 then "NaN" else "+Inf") := by
  refine ⟨getGPSData_of_le ryu data (by omega), ?_, ?_⟩
  · rw [hd]; simp [float64Quot]
  · unfold gpsComponent
    rw [hd]
    by_cases hn : uint32BE data (8 * i.val) = 0
    · simp [float64Quot, hn, sprintV]
    · simp [float64Quot, hn, sprintV]

/-- C4 at the buffer of the rationals `40/1`, `7/0`, `0/0`, for the second rational:
the output is `40 +Inf NaN `. -/
theorem getGPSData_zero_denominator_witness :
    ([0, 0, 0, 40, 0, 0, 0, 1, 0, 0, 0, 7, 0, 0, 0, 0, 0, 0, 0, 0, 0, 0, 0, 0] :
        List Byte).length = 24 ∧
    uint32BE [0, 0, 0, 40, 0, 0, 0, 1, 0, 0, 0, 7, 0, 0, 0, 0, 0, 0, 0, 0, 0, 0, 0, 0]
      (8 * (1 : Fin 3).val + 4) = 0 ∧
    getGPSData noRyu [0, 0, 0, 40, 0, 0, 0, 1, 0, 0, 0, 7, 0, 0, 0, 0, 0, 0, 0, 0, 0, 0, 0, 0]
      = ("40 +Inf NaN ", none) ∧
    gpsComponent noRyu
      [0, 0, 0, 40, 0, 0, 0, 1, 0, 0, 0, 7, 0, 0, 0, 0, 0, 0, 0, 0, 0, 0, 0, 0] 1 = "+Inf" :=
  ⟨by decide, by decide, by decide,
    (getGPSData_zero_denominator noRyu
      [0, 0, 0, 40, 0, 0, 0, 1, 0, 0, 0, 7, 0, 0, 0, 0, 0, 0, 0, 0, 0, 0, 0, 0] (by decide)
      1 (by decide)).2.2⟩

/-! ## Theorems: `readEXIF` -/

/-- The part of `readEXIF` after the `switch` returns either both strings, from the two
tags of the GPS IFD, or an error and two empty strings. -/
theorem readGPSInfo_cases (lib : ExifLib) (ryu : Nat → Int → decimalSlice)
    (rootIb : lib.IfdBuilder) :
    (∃ ifdIb latitudeTag longitudeTag latitude longitude,
        lib.GetOrCreateIbFromRootIb rootIb "IFD/GPSInfo" = .ok ifdIb ∧
        lib.FindTag ifdIb TagLatitudeId = .ok latitudeTag ∧
        lib.FindTag ifdIb TagLongitudeId = .ok longitudeTag ∧
        getGPSData ryu (lib.valueBytes latitudeTag) = (latitude, none) ∧
        getGPSData ryu (lib.valueBytes longitudeTag) = (longitude, none) ∧
        readGPSInfo lib ryu rootIb = (latitude, longitude, none)) ∨
      ∃ err, readGPSInfo lib ryu rootIb = ("", "", some err) := by
  unfold readGPSInfo
  dsimp only
  cases h1 : lib.GetOrCreateIbFromRootIb rootIb "IFD/GPSInfo" with
  | error err => exact Or.inr ⟨err, rfl⟩
  | ok ifdIb =>
    dsimp only
    cases h2 : lib.FindTag ifdIb TagLatitudeId with
    | error err => exact Or.inr ⟨err, rfl⟩
    | ok latitudeTag =>
      dsimp only
      rcases h3 : getGPSData ryu (lib.valueBytes latitudeTag) with ⟨latitude, _ | err⟩
      · dsimp only
        cases h4 : lib.FindTag ifdIb TagLongitudeId with
        | error err => exact Or.inr ⟨err, rfl⟩
        | ok longitudeTag =>
          dsimp only
          rcases h5 : getGPSData ryu (lib.valueBytes longitudeTag) with ⟨longitude, _ | err⟩
          · exact Or.inl ⟨ifdIb, latitudeTag, longitudeTag, latitude, longitude,
              rfl, h2, h4, h3, h5, rfl⟩
          · exact Or.inr ⟨err, rfl⟩
      · exact Or.inr ⟨err, rfl⟩

/-- The result of `readEXIF` is all or nothing: both strings and a nil error, the strings
being what `getGPSData` returns without error on the latitude and the longitude tag of
the GPS IFD of the parsed file, or two empty strings and an error. -/
theorem readEXIF_cases (lib : ExifLib) (ryu : Nat → Int → decimalSlice) (path : String) :
    (∃ rootIb ifdIb latitudeTag longitudeTag latitude longitude,
        parsedRoot lib path rootIb ∧
        lib.GetOrCreateIbFromRootIb rootIb "IFD/GPSInfo" = .ok ifdIb ∧
        lib.FindTag ifdIb TagLatitudeId = .ok latitudeTag ∧
        lib.FindTag ifdIb TagLongitudeId = .ok longitudeTag ∧
        getGPSData ryu (lib.valueBytes latitudeTag) = (latitude, none) ∧
        getGPSData ryu (lib.valueBytes longitudeTag) = (longitude, none) ∧
        readEXIF lib ryu path = (latitude, longitude, none)) ∨
      ∃ err, readEXIF lib ryu path = ("", "", some err) := by
  unfold readEXIF parsedRoot
  dsimp only
  cases hsw : switchExtension (Ext path) with
  | jpeg =>
    dsimp only
    cases hp : lib.jpgParseFile path with
    | error err => exact Or.inr ⟨err, rfl⟩
    | ok sl =>
      dsimp only
      cases hc : lib.jpgConstructExifBuilder sl with
      | error err => exact Or.inr ⟨err, rfl⟩
      | ok rootIb =>
        rcases readGPSInfo_cases lib ryu rootIb with
          ⟨ifdIb, t1, t2, la, lo, h1, h2, h3, h4, h5, h6⟩ | ⟨err, h⟩
        · exact Or.inl ⟨rootIb, ifdIb, t1, t2, la, lo, Or.inl ⟨rfl, sl, rfl, hc⟩,
            h1, h2, h3, h4, h5, h6⟩
        · exact Or.inr ⟨err, h⟩
  | png =>
    dsimp only
    cases hp : lib.pngParseFile path with
    | error err => exact Or.inr ⟨err, rfl⟩
    | ok sl =>
      dsimp only
      cases hc : lib.pngConstructExifBuilder sl with
      | error err => exact Or.inr ⟨err, rfl⟩
      | ok rootIb =>
        rcases readGPSInfo_cases lib ryu rootIb with
          ⟨ifdIb, t1, t2, la, lo, h1, h2, h3, h4, h5, h6⟩ | ⟨err, h⟩
        · exact Or.inl ⟨rootIb, ifdIb, t1, t2, la, lo, Or.inr ⟨rfl, sl, rfl, hc⟩,
            h1, h2, h3, h4, h5, h6⟩
        · exact Or.inr ⟨err, h⟩
  | default => exact Or.inr ⟨"invalid extension", rfl⟩

/-! ## Theorems: the traversal and `main` -/

/-- `IsImage` returns `true` silently or `false` with one diagnostic line. -/
theorem IsImage_cases (p : String) :
    IsImage p = (true, []) ∨ IsImage p = (false, ["Not a valid image file format: " ++ p]) := by
  unfold IsImage
  dsimp only
  cases isImageLoop (Ext p) imageExtensions with
  | true => exact Or.inl rfl
  | false => exact Or.inr rfl

/-- On a visit without error the callback appends the record of the path, if any, and
returns nil. -/
theorem walkFn_none (w : World) (data : List Data) (path : String) :
    (walkFn w data path none).1 = data ++ (recordOf w path).toList ∧
      (walkFn w data path none).2.2 = none := by
  unfold walkFn recordOf
  dsimp only
  rcases IsImage_cases path with hI | hI
  · rw [hI]
    dsimp only
    rcases readEXIF w.lib w.ryu path with ⟨lat, lon, _ | err⟩
    · simp
    · simp
  · rw [hI]
    simp

/-- The callback keeps the records good and emits only traversal events. -/
theorem walkFn_inv (w : World) (data : List Data) (path : String) (err : Option Error)
    (hd : ∀ r ∈ data, goodRecord w r) :
    (∀ r ∈ (walkFn w data path err).1, goodRecord w r) ∧
      ∀ e ∈ (walkFn w data path err).2.1, walkEvent e := by
  unfold walkFn
  cases err with
  | some e => exact ⟨hd, by simp⟩
  | none =>
    dsimp only
    rcases IsImage_cases path with hI | hI
    · rw [hI]
      dsimp only
      rcases hR : readEXIF w.lib w.ryu path with ⟨lat, lon, _ | err⟩
      · dsimp only
        constructor
        · intro r hr
          rcases List.mem_append.mp hr with hr | hr
          · exact hd r hr
          · rw [List.mem_singleton] at hr
            subst hr
            exact ⟨by rw [hI], hR⟩
        · intro e he
          rw [List.mem_singleton] at he
          subst he
          show (IsImage path).1 = true
          rw [hI]
      · dsimp only
        refine ⟨hd, ?_⟩
        intro e he
        simp only [List.mem_cons, List.mem_singleton, List.not_mem_nil, or_false] at he
        rcases he with rfl | rfl
        · show (IsImage path).1 = true
          rw [hI]
        · trivial
    · rw [hI]
      dsimp only
      refine ⟨hd, ?_⟩
      intro e he
      simp only [List.map_cons, List.map_nil, List.mem_singleton] at he
      subst he
      trivial

/-- The traversal keeps the records good and emits only traversal events. -/
theorem Walk_inv (w : World) (visits : List (String × Option Error)) :
    ∀ (data : List Data) (trace : List Event), (∀ r ∈ data, goodRecord w r) →
      (∀ e ∈ trace, walkEvent e) →
      (∀ r ∈ (Walk w visits data trace).1, goodRecord w r) ∧
        ∀ e ∈ (Walk w visits data trace).2.1, walkEvent e := by
  induction visits with
  | nil => intro data trace hd ht; exact ⟨hd, ht⟩
  | cons v rest ih =>
    intro data trace hd ht
    obtain ⟨path, err⟩ := v
    have hinv := walkFn_inv w data path err hd
    unfold Walk
    rcases hW : walkFn w data path err with ⟨data2, events, _ | e⟩
    · rw [hW] at hinv
      dsimp only
      refine ih data2 (trace ++ events) hinv.1 ?_
      intro e he
      rcases List.mem_append.mp he with he | he
      · exact ht e he
      · exact hinv.2 e he
    · rw [hW] at hinv
      dsimp only
      refine ⟨hinv.1, ?_⟩
      intro e he
      rcases List.mem_append.mp he with he | he
      · exact ht e he
      · exact hinv.2 e he

/-- Without a walk error the traversal ends without error, with one record per visited
path that has one, in order, after the records it started with. -/
theorem Walk_no_error (w : World) (visits : List (String × Option Error))
    (h : ∀ v ∈ visits, v.2 = none) :
    ∀ (data : List Data) (trace : List Event),
      (Walk w visits data trace).1 = data ++ visits.filterMap (fun v => recordOf w v.1) ∧
        (Walk w visits data trace).2.2 = none := by
  induction visits with
  | nil => intro data trace; simp [Walk]
  | cons v rest ih =>
    intro data trace
    obtain ⟨path, err⟩ := v
    have herr : err = none := h (path, err) (List.mem_cons_self _ _)
    subst herr
    have hfn := walkFn_none w data path
    unfold Walk
    rcases hW : walkFn w data path none with ⟨data2, events, _ | e⟩
    · rw [hW] at hfn
      dsimp only at hfn ⊢
      have := ih (fun v hv => h v (List.mem_cons_of_mem _ hv)) data2 (trace ++ events)
      rw [this.1, this.2, hfn.1]
      refine ⟨?_, rfl⟩
      cases hr : recordOf w path <;> simp [List.filterMap_cons, hr]
    · rw [hW] at hfn
      exact absurd hfn.2 (by simp)

/-- The row loop of `saveToCSV` only adds log lines. -/
theorem saveRows_logs (w : World) (data : List Data) :
    ∀ (k : Nat) (text : List Char) (logs : List Event), (∀ e ∈ logs, saveEvent e) →
      ∀ e ∈ (saveRows w data k text logs).2, saveEvent e := by
  induction data with
  | nil => intro k text logs h; exact h
  | cons d rest ih =>
    intro k text logs h
    unfold saveRows
    dsimp only
    cases w.csvWriteErr k with
    | none => exact ih _ _ _ h
    | some err =>
      refine ih _ _ _ ?_
      intro e he
      rcases List.mem_append.mp he with he | he
      · exact h e he
      · rw [List.mem_singleton] at he
        subst he
        trivial

/-- `saveToCSV` emits only report-writer events. -/
theorem saveToCSV_events (w : World) (data : List Data) :
    ∀ e ∈ (saveToCSV w data).2, saveEvent e := by
  unfold saveToCSV
  cases w.create csvFilePath with
  | some err => simp
  | none =>
    dsimp only
    cases w.csvWriteErr 0 with
    | some err =>
      intro e he
      simp only [List.mem_cons, List.mem_singleton, List.not_mem_nil, or_false] at he
      rcases he with rfl | rfl <;> trivial
    | none =>
      dsimp only
      have hl := saveRows_logs w data 1
        (csvWrite ["Image File Path", "GPS Latitude", "GPS Longitude"]) [] (by simp)
      intro e he
      simp only [List.mem_append, List.mem_cons, List.mem_singleton, List.not_mem_nil,
        or_false] at he
      rcases he with (rfl | he) | rfl | rfl
      · trivial
      · exact hl e he
      · trivial
      · trivial

/-- `saveToHTML` emits only report-writer events. -/
theorem saveToHTML_events (w : World) (data : List Data) :
    ∀ e ∈ (saveToHTML w data).2, saveEvent e := by
  unfold saveToHTML
  cases w.create "output.html" with
  | some err => simp
  | none =>
    dsimp only
    cases w.htmlExecute data with
    | some err =>
      intro e he
      simp only [List.mem_singleton] at he
      subst he
      trivial
    | none =>
      intro e he
      simp only [List.mem_cons, List.mem_singleton, List.not_mem_nil, or_false] at he
      rcases he with rfl | rfl | rfl <;> trivial

/-- The end of `main` appends to the trace the call of the report writer selected by the
flag, on the accumulated records, and then only report-writer events. -/
theorem saveReport_trace (w : World) (a : Args) (data : List Data) (trace : List Event) :
    ∃ events, (∀ e ∈ events, saveEvent e) ∧
      (saveReport w a data trace).trace =
        trace ++ (if a.saveAsHTMLArg = true then Event.saveToHTML data
          else Event.saveToCSV data) :: events := by
  unfold saveReport
  by_cases hh : a.saveAsHTMLArg = true
  · rw [if_pos hh, if_pos hh]
    have hev := saveToHTML_events w data
    rcases hS : saveToHTML w data with ⟨_ | err, events⟩ <;> rw [hS] at hev
    · exact ⟨events, hev, by simp⟩
    · refine ⟨events ++ [.log ("Error writing HTML file: " ++ err)], ?_, by simp⟩
      intro e he
      rcases List.mem_append.mp he with he | he
      · exact hev e he
      · rw [List.mem_singleton] at he
        subst he
        trivial
  · rw [if_neg hh, if_neg hh]
    have hev := saveToCSV_events w data
    rcases hS : saveToCSV w data with ⟨_ | code, events⟩ <;> rw [hS] at hev
    · rename_i err
      cases err with
      | none => exact ⟨events, hev, by simp⟩
      | some err =>
        refine ⟨events ++ [.log ("Error writing csv file: " ++ err)], ?_, by simp⟩
        intro e he
        rcases List.mem_append.mp he with he | he
        · exact hev e he
        · rw [List.mem_singleton] at he
          subst he
          trivial
    · exact ⟨events, hev, by simp⟩

/-- Traversal events hand nothing to a report writer. -/
theorem reports_of_walkEvents (trace : List Event) (h : ∀ e ∈ trace, walkEvent e) :
    reports trace = [] := by
  unfold reports
  rw [List.filterMap_eq_nil_iff]
  intro e he
  have := h e he
  cases e <;> first | rfl | exact absurd this (by simp [walkEvent])

/-- Report-writer events hand nothing to a report writer. -/
theorem reports_of_saveEvents (events : List Event) (h : ∀ e ∈ events, saveEvent e) :
    reports events = [] := by
  unfold reports
  rw [List.filterMap_eq_nil_iff]
  intro e he
  have := h e he
  cases e <;> first | rfl | exact absurd this (by simp [saveEvent])

/-- The records handed to the report writer at the end of `main`. -/
theorem saveReport_reports (w : World) (a : Args) (data : List Data) (trace : List Event)
    (h : ∀ e ∈ trace, walkEvent e) :
    reports (saveReport w a data trace).trace = [data] := by
  obtain ⟨events, hev, htr⟩ := saveReport_trace w a data trace
  rw [htr]
  have h1 := reports_of_walkEvents trace h
  have h2 := reports_of_saveEvents events hev
  unfold reports at h1 h2 ⊢
  rw [List.filterMap_append, List.filterMap_cons, h1, h2]
  cases a.saveAsHTMLArg <;> rfl

/-- The calls of `readEXIF` in the trace of the end of `main` are those made before. -/
theorem saveReport_readEXIF (w : World) (a : Args) (data : List Data) (trace : List Event)
    (p : String) (h : Event.readEXIF p ∈ (saveReport w a data trace).trace) :
    Event.readEXIF p ∈ trace := by
  obtain ⟨events, hev, htr⟩ := saveReport_trace w a data trace
  rw [htr] at h
  rcases List.mem_append.mp h with h | h
  · exact h
  · rcases List.mem_cons.mp h with h | h
    · cases hh : a.saveAsHTMLArg <;> simp [hh] at h
    · exact absurd (hev _ h) (by simp [saveEvent])

/-- The filter and the dispatch of `readEXIF` agree. -/
theorem switchExtension_default_iff (p : String) :
    switchExtension (Ext p) = Case.default ↔ (IsImage p).1 = false := by
  have h := IsImage_fst p
  rw [← Bool.not_eq_true, h]
  unfold switchExtension
  by_cases h1 : Ext p = ".jpg" ∨ Ext p = ".jpeg"
  · rw [if_pos h1]
    constructor
    · intro hc; cases hc
    · intro hn
      exact absurd (h1.elim Or.inl (fun x => Or.inr (Or.inl x))) hn
  · rw [if_neg h1]
    by_cases h2 : Ext p = ".png"
    · rw [if_pos h2]
      constructor
      · intro hc; cases hc
      · intro hn
        exact absurd (Or.inr (Or.inr h2)) hn
    · rw [if_neg h2]
      constructor
      · intro _ hn
        rcases hn with hn | hn | hn
        · exact h1 (Or.inl hn)
        · exact h1 (Or.inr hn)
        · exact h2 hn
      · intro _; rfl

/-- What `IsPathExists` returns for an existing path. -/
theorem IsPathExists_info (w : World) (path : String) (isDir : Bool)
    (hs : w.stat path = .info isDir) :
    IsPathExists w.stat path = (if isDir = true then Dir else File, none) := by
  unfold IsPathExists
  rw [hs]
  cases isDir <;> rfl

/-- In every run, `readEXIF` is called only on paths that passed the filter, and every
record handed to a report writer comes from a successful extraction. -/
theorem main_inv (w : World) (a : Args) :
    (∀ p, Event.readEXIF p ∈ (main w a).trace → (IsImage p).1 = true) ∧
      ∀ data ∈ reports (main w a).trace, ∀ r ∈ data, goodRecord w r := by
  unfold main
  by_cases hp : a.pathArg = ""
  · rw [if_pos hp]
    simp [reports, Event.report]
  rw [if_neg hp]
  by_cases hh : a.helpArg = true
  · rw [if_pos hh]
    simp [reports, Event.report]
  rw [if_neg hh]
  rcases IsPathExists w.stat a.pathArg with ⟨pathType, _ | err⟩
  swap
  · simp [reports, Event.report]
  dsimp only
  by_cases hF : pathType = File
  · rw [if_pos hF]
    rcases IsImage_cases a.pathArg with hI | hI
    · rw [hI]
      dsimp only
      rcases hR : readEXIF w.lib w.ryu a.pathArg with ⟨lat, lon, _ | err⟩
      · dsimp only
        have hI1 : (IsImage a.pathArg).1 = true := by rw [hI]
        have hwe : ∀ e ∈ [Event.readEXIF a.pathArg], walkEvent e := by
          intro e he
          rw [List.mem_singleton] at he
          subst he
          exact hI1
        constructor
        · intro p hpm
          have := saveReport_readEXIF w a _ _ p hpm
          rw [List.mem_singleton] at this
          cases this
          exact hI1
        · intro data hdata r hr
          rw [saveReport_reports w a _ _ hwe, List.mem_singleton] at hdata
          subst hdata
          simp only [List.nil_append, List.mem_singleton] at hr
          subst hr
          exact ⟨hI1, hR⟩
      · dsimp only
        constructor
        · intro p hpm
          simp only [List.mem_cons, List.mem_singleton, List.not_mem_nil, or_false,
            Event.readEXIF.injEq, reduceCtorEq] at hpm
          subst hpm
          rw [hI]
        · simp [reports, Event.report]
    · rw [hI]
      simp [reports, Event.report]
  · rw [if_neg hF]
    have hinv := Walk_inv w (w.walk a.pathArg) [] [] (by simp) (by simp)
    rcases hW : Walk w (w.walk a.pathArg) [] [] with ⟨data, trace, _ | err⟩
    · rw [hW] at hinv
      dsimp only at hinv ⊢
      constructor
      · intro p hpm
        exact hinv.2 _ (saveReport_readEXIF w a _ _ p hpm)
      · intro d hd r hr
        rw [saveReport_reports w a _ _ hinv.2, List.mem_singleton] at hd
        subst hd
        exact hinv.1 r hr
    · rw [hW] at hinv
      dsimp only at hinv ⊢
      have hall : ∀ e ∈ trace ++ [Event.log ("Error while walking through the directory: " ++ err)],
          walkEvent e := by
        intro e he
        rcases List.mem_append.mp he with he | he
        · exact hinv.2 e he
        · rw [List.mem_singleton] at he
          subst he
          trivial
      constructor
      · intro p hpm
        exact hall _ hpm
      · rw [reports_of_walkEvents _ hall]
        simp

/-- `main` below the flag checks, for a path that is a directory. -/
theorem main_dir (w : World) (a : Args) (hp : a.pathArg ≠ "") (hh : a.helpArg = false)
    (hs : w.stat a.pathArg = .info true) :
    main w a =
      match Walk w (w.walk a.pathArg) [] [] with
      | (_, trace, some err) =>
        ⟨1, trace ++ [.log ("Error while walking through the directory: " ++ err)]⟩
      | (data, trace, none) => saveReport w a data trace := by
  unfold main
  rw [if_neg hp, hh, IsPathExists_info w _ _ hs]
  simp [Dir, File]

/-- C5: partial data is never emitted.  For every path, `readEXIF` returns either a nil
error with the two strings that `getGPSData` returned without error on the latitude tag
and on the longitude tag of the GPS IFD of the parsed file, or an error with two empty
strings (so also when the latitude parses and the longitude tag is missing or does not
parse); and in every run of `main`, every record of a list handed to a report writer
carries the two strings of a successful `readEXIF` on its path. -/
theorem no_partial_data (w : World) (a : Args) (path : String) :
    ((∃ rootIb ifdIb latitudeTag longitudeTag latitude longitude,
        parsedRoot w.lib path rootIb ∧
        w.lib.GetOrCreateIbFromRootIb rootIb "IFD/GPSInfo" = .ok ifdIb ∧
        w.lib.FindTag ifdIb TagLatitudeId = .ok latitudeTag ∧
        w.lib.FindTag ifdIb TagLongitudeId = .ok longitudeTag ∧
        getGPSData w.ryu (w.lib.valueBytes latitudeTag) = (latitude, none) ∧
        getGPSData w.ryu (w.lib.valueBytes longitudeTag) = (longitude, none) ∧
        readEXIF w.lib w.ryu path = (latitude, longitude, none)) ∨
      ∃ err, readEXIF w.lib w.ryu path = ("", "", some err)) ∧
    ∀ data ∈ reports (main w a).trace, ∀ r ∈ data,
      readEXIF w.lib w.ryu r.FilePath = (r.Latitude, r.Longitude, none) :=
  ⟨readEXIF_cases w.lib w.ryu path, fun data hd r hr => ((main_inv w a).2 data hd r hr).2⟩

/-- C6: in directory mode, when the walk passes no error to the callback, the record
list handed to the report writer is exactly, in traversal order, one record per visited
path for which `IsImage` is true and `readEXIF` succeeds, carrying the path and the two
strings `readEXIF` returned; a path whose extraction fails only contributes no record. -/
theorem directory_mode_records (w : World) (a : Args) (hp : a.pathArg ≠ "")
    (hh : a.helpArg = false) (hs : w.stat a.pathArg = .info true)
    (hwalk : ∀ v ∈ w.walk a.pathArg, v.2 = none) :
    reports (main w a).trace = [(w.walk a.pathArg).filterMap (fun v => recordOf w v.1)] := by
  rw [main_dir w a hp hh hs]
  have hne := Walk_no_error w (w.walk a.pathArg) hwalk [] []
  have hinv := Walk_inv w (w.walk a.pathArg) [] [] (by simp) (by simp)
  rcases hW : Walk w (w.walk a.pathArg) [] [] with ⟨data, trace, _ | err⟩
  · rw [hW] at hne hinv
    dsimp only at hne hinv ⊢
    rw [saveReport_reports w a _ _ hinv.2, hne.1, List.nil_append]
  · rw [hW] at hne
    exact absurd hne.2 (by simp)

/-- C6 on a directory with two valid images, a corrupt one and a text file: exactly the
two records of the valid images, in traversal order. -/
theorem directory_mode_records_witness :
    reports (main demoWorld { pathArg := "d", saveAsHTMLArg := false, helpArg := false }).trace
      = [[{ FilePath := "d/a.jpg", Latitude := "40 20 0 ", Longitude := "74 0 21 " },
          { FilePath := "d/b.png", Latitude := "40 20 0 ", Longitude := "74 0 21 " }]] :=
  (directory_mode_records demoWorld
      { pathArg := "d", saveAsHTMLArg := false, helpArg := false }
      (by decide) rfl (by simp [demoWorld]) (by decide)).trans (by decide)

/-- C9 at the invocation with `--help` and no `--path`: the run prints the request for a
file path and ends with status 1, without showing the usage text. -/
theorem help_without_path (w : World) (html : Bool) :
    main w { pathArg := "", saveAsHTMLArg := html, helpArg := true } =
      ⟨1, [.stdout "Please provide a file-path for an image.\n"]⟩ := by
  unfold main
  rw [if_pos rfl]

/-- With `--help` and a non-empty `--path`, the run shows the usage text and ends with
status 0 without looking at the path. -/
theorem help_with_path (w : World) (a : Args) (hp : a.pathArg ≠ "") (hh : a.helpArg = true) :
    main w a = ⟨0, [.usage]⟩ := by
  unfold main
  rw [if_neg hp, if_pos hh]

/-- C10: the extension filter and the format dispatch agree.  For every path `p`,
`readEXIF` takes the default case of its `switch` if and only if `IsImage(p)` is false,
and in that case it returns the error `invalid extension` with two empty strings whatever
the libraries and the files are; and in every run of `main`, `readEXIF` is called only on
paths for which `IsImage` is true, which never take the default case. -/
theorem invalid_extension_unreachable (w : World) (a : Args) (p : String) :
    (switchExtension (Ext p) = Case.default ↔ (IsImage p).1 = false) ∧
    (switchExtension (Ext p) = Case.default →
      ∀ (lib : ExifLib) (ryu : Nat → Int → decimalSlice),
        readEXIF lib ryu p = ("", "", some "invalid extension")) ∧
    (Event.readEXIF p ∈ (main w a).trace →
      (IsImage p).1 = true ∧ switchExtension (Ext p) ≠ Case.default) := by
  refine ⟨switchExtension_default_iff p, ?_, ?_⟩
  · intro h lib ryu
    unfold readEXIF
    dsimp only
    rw [h]
  · intro h
    have hI := (main_inv w a).1 p h
    refine ⟨hI, ?_⟩
    intro hd
    rw [(switchExtension_default_iff p).mp hd] at hI
    cases hI

/-! ## Theorems: the CSV report -/

/-- When no write fails, the row loop of `saveToCSV` appends the rows and logs nothing. -/
theorem saveRows_ok (w : World) (hw : ∀ k, w.csvWriteErr k = none) (data : List Data) :
    ∀ (k : Nat) (text : List Char) (logs : List Event),
      saveRows w data k text logs = (text ++ rowsText data, logs) := by
  induction data with
  | nil => intro k text logs; simp [saveRows, rowsText]
  | cons d rest ih =>
    intro k text logs
    unfold saveRows
    dsimp only
    rw [hw k]
    dsimp only
    rw [ih]
    simp [rowsText, rowOf]

/-- When the file is created and no write fails, `saveToCSV` returns nil after handing
the header and the rows to the writer. -/
theorem saveToCSV_ok (w : World) (data : List Data) (hc : w.create csvFilePath = none)
    (hw : ∀ k, w.csvWriteErr k = none) :
    saveToCSV w data =
      (.ret none, [.created csvFilePath, .stdout "CSV file created successfully!\n",
        .csvAccepted ⟨csvWrite csvHeader ++ rowsText data⟩]) := by
  unfold saveToCSV
  rw [hc]
  dsimp only
  rw [hw 0]
  dsimp only
  rw [saveRows_ok w hw]
  rfl

/-- The header row is the literal header line. -/
theorem csvWrite_header :
    csvWrite csvHeader = "Image File Path,GPS Latitude,GPS Longitude\n".data := by
  decide

/-- What the CSV writer writes for three fields. -/
theorem csvWrite_three (f1 f2 f3 : String) :
    csvWrite [f1, f2, f3] =
      writeField f1.data ++ ',' :: (writeField f2.data ++ ',' :: (writeField f3.data ++ [LF])) := by
  simp [csvWrite, writeFields]

/-- Quoting keeps the line feeds of a field. -/
theorem count_LF_writeQuoted (field : List Char) :
    (writeQuoted field).count LF = field.count LF := by
  induction field with
  | nil => rfl
  | cons c rest ih =>
    unfold writeQuoted
    by_cases hc : c = dquote
    · rw [if_pos hc, hc]
      have h1 : (dquote == LF) = false := by decide
      simp [List.count_cons, ih, h1]
    · rw [if_neg hc]
      simp [List.count_cons, ih]

/-- A written field has the line feeds of the field. -/
theorem count_LF_writeField (field : List Char) :
    (writeField field).count LF = field.count LF := by
  unfold writeField
  have h1 : (dquote == LF) = false := by decide
  cases fieldNeedsQuotes field <;>
    simp [List.count_cons, count_LF_writeQuoted, h1]

/-- The lines of the rows: one per record, and one per line feed inside a field. -/
theorem lineCount_rowsText (data : List Data) :
    lineCount (rowsText data) = data.length + fieldLineFeeds data := by
  induction data with
  | nil => rfl
  | cons d rest ih =>
    unfold lineCount at ih ⊢
    have h1 : (',' == LF) = false := by decide
    simp only [rowsText, rowOf, csvWrite_three, List.count_append, List.count_cons,
      count_LF_writeField, List.count_nil, ih, fieldLineFeeds, List.length_cons, h1]
    simp
    omega

/-- Characters other than the double quote, the comma and the line feed join a bare
field. -/
theorem read_bare (f : List Char) (hf : ∀ c ∈ f, c ≠ dquote ∧ c ≠ ',' ∧ c ≠ LF) :
    ∀ (R : List (List String)) (F : List String) (cur : List Char) (m : ReadMode),
      m = .fieldStart ∨ m = .bare →
      ∃ m2, (m2 = .fieldStart ∨ m2 = .bare) ∧
        f.foldl readChar ⟨R, F, cur, m⟩ = ⟨R, F, cur ++ f, m2⟩ := by
  induction f with
  | nil => intro R F cur m hm; exact ⟨m, hm, by simp⟩
  | cons c rest ih =>
    intro R F cur m hm
    have hc := hf c (List.mem_cons_self _ _)
    have hstep : readChar ⟨R, F, cur, m⟩ c = ⟨R, F, cur ++ [c], .bare⟩ := by
      rcases hm with rfl | rfl <;>
        simp [readChar, hc.1, hc.2.1, hc.2.2, ReadState.push, ReadState.setMode]
    obtain ⟨m2, hm2, h⟩ := ih (fun x hx => hf x (List.mem_cons_of_mem _ hx)) R F
      (cur ++ [c]) .bare (Or.inr rfl)
    refine ⟨m2, hm2, ?_⟩
    rw [List.foldl_cons, hstep, h]
    simp

/-- Inside a quoted field the reader undoes the doubling of the double quotes. -/
theorem read_quoted (f : List Char) :
    ∀ (R : List (List String)) (F : List String) (cur : List Char),
      (writeQuoted f).foldl readChar ⟨R, F, cur, .quoted⟩ = ⟨R, F, cur ++ f, .quoted⟩ := by
  induction f with
  | nil => intro R F cur; simp [writeQuoted]
  | cons c rest ih =>
    intro R F cur
    unfold writeQuoted
    by_cases hc : c = dquote
    · rw [if_pos hc, hc]
      simp only [List.foldl_cons]
      have h1 : readChar ⟨R, F, cur, .quoted⟩ dquote = ⟨R, F, cur, .quoteSeen⟩ := by
        simp [readChar, ReadState.setMode]
      have h2 : readChar ⟨R, F, cur, .quoteSeen⟩ dquote = ⟨R, F, cur ++ [dquote], .quoted⟩ := by
        simp [readChar, ReadState.push]
      rw [h1, h2, ih]
      simp
    · rw [if_neg hc]
      simp only [List.foldl_cons]
      have h1 : readChar ⟨R, F, cur, .quoted⟩ c = ⟨R, F, cur ++ [c], .quoted⟩ := by
        simp [readChar, hc, ReadState.push]
      rw [h1, ih]
      simp

/-- A field that needs no quotes has no double quote, comma or line feed. -/
theorem bare_of_not_needsQuotes (f : List Char) (h : fieldNeedsQuotes f = false) :
    ∀ c ∈ f, c ≠ dquote ∧ c ≠ ',' ∧ c ≠ LF := by
  unfold fieldNeedsQuotes at h
  by_cases h0 : f = []
  · subst h0; simp
  · rw [if_neg h0] at h
    by_cases h1 : f = [Char.ofNat 92, '.']
    · rw [if_pos h1] at h; cases h
    · rw [if_neg h1] at h
      by_cases h2 : (f.any fun c => decide (c = LF ∨ c = CR ∨ c = dquote ∨ c = ',')) = true
      · rw [if_pos h2] at h; cases h
      · rw [if_neg h2] at h
        intro c hc
        rw [List.any_eq_true] at h2
        refine ⟨?_, ?_, ?_⟩
        · intro hx; exact h2 ⟨c, hc, by simp [hx]⟩
        · intro hx; exact h2 ⟨c, hc, by simp [hx]⟩
        · intro hx; exact h2 ⟨c, hc, by simp [hx]⟩

/-- The reader gets a written field back and is outside quotes after it. -/
theorem read_writeField (f : List Char) (R : List (List String)) (F : List String) :
    ∃ m, m ≠ ReadMode.quoted ∧
      (writeField f).foldl readChar ⟨R, F, [], .fieldStart⟩ = ⟨R, F, f, m⟩ := by
  unfold writeField
  cases hq : fieldNeedsQuotes f with
  | false =>
    obtain ⟨m2, hm2, h⟩ := read_bare f (bare_of_not_needsQuotes f hq) R F [] .fieldStart
      (Or.inl rfl)
    refine ⟨m2, ?_, by simpa using h⟩
    rcases hm2 with rfl | rfl <;> simp
  | true =>
    refine ⟨.quoteSeen, by simp, ?_⟩
    have h1 : readChar ⟨R, F, [], .fieldStart⟩ dquote = ⟨R, F, [], .quoted⟩ := by
      simp [readChar, ReadState.setMode]
    have h2 : readChar ⟨R, F, f, .quoted⟩ dquote = ⟨R, F, f, .quoteSeen⟩ := by
      simp [readChar, ReadState.setMode]
    simp [List.foldl_append, h1, read_quoted, h2]

/-- Outside quotes a comma ends the field. -/
theorem read_comma (R : List (List String)) (F : List String) (cur : List Char)
    (m : ReadMode) (hm : m ≠ .quoted) :
    readChar ⟨R, F, cur, m⟩ ',' = ⟨R, F ++ [⟨cur⟩], [], .fieldStart⟩ := by
  have h1 : ¬ (',' = dquote) := by decide
  cases m <;> simp [readChar, ReadState.endField, h1] at hm ⊢

/-- Outside quotes a line feed ends the record. -/
theorem read_LF (R : List (List String)) (F : List String) (cur : List Char)
    (m : ReadMode) (hm : m ≠ .quoted) :
    readChar ⟨R, F, cur, m⟩ LF = ⟨R ++ [F ++ [⟨cur⟩]], [], [], .fieldStart⟩ := by
  have h1 : ¬ (LF = dquote) := by decide
  have h2 : ¬ (LF = ',') := by decide
  cases m <;> simp [readChar, ReadState.endRecord, h1, h2] at hm ⊢

/-- The reader gets a written row of three fields back as one record. -/
theorem read_csvWrite (f1 f2 f3 : String) (R : List (List String)) :
    (csvWrite [f1, f2, f3]).foldl readChar ⟨R, [], [], .fieldStart⟩ =
      ⟨R ++ [[f1, f2, f3]], [], [], .fieldStart⟩ := by
  rw [csvWrite_three]
  obtain ⟨m1, hm1, h1⟩ := read_writeField f1.data R []
  obtain ⟨m2, hm2, h2⟩ := read_writeField f2.data R [f1]
  obtain ⟨m3, hm3, h3⟩ := read_writeField f3.data R [f1, f2]
  rw [List.foldl_append, h1, List.foldl_cons, read_comma _ _ _ _ hm1]
  rw [List.foldl_append, List.nil_append, h2, List.foldl_cons, read_comma _ _ _ _ hm2]
  have e : [f1] ++ [(⟨f2.data⟩ : String)] = [f1, f2] := rfl
  rw [e, List.foldl_append, h3, List.foldl_cons, read_LF _ _ _ _ hm3]
  rfl

/-- The reader gets the written rows back, one record per row, in order. -/
theorem read_rowsText (data : List Data) :
    ∀ R : List (List String),
      (rowsText data).foldl readChar ⟨R, [], [], .fieldStart⟩ =
        ⟨R ++ data.map rowOf, [], [], .fieldStart⟩ := by
  induction data with
  | nil => intro R; simp [rowsText]
  | cons d rest ih =>
    intro R
    rw [rowsText, List.foldl_append]
    unfold rowOf at ih ⊢
    rw [read_csvWrite, ih]
    simp

/-- The reader gets the header and the rows back from the text of the report. -/
theorem readCSV_report (data : List Data) :
    readCSV (csvWrite csvHeader ++ rowsText data) = csvHeader :: data.map rowOf := by
  unfold readCSV
  rw [List.foldl_append]
  have hh := read_csvWrite "Image File Path" "GPS Latitude" "GPS Longitude" []
  unfold csvHeader
  rw [hh, read_rowsText]
  rfl

/-- C7 as stated fails: for a record whose file path holds a line feed, the text that
`saveToCSV` hands to the writer in a world where nothing fails has three lines, not
`len(records) + 1 = 2`. -/
theorem csv_line_count_counterexample :
    ¬ ∀ (w : World) (data : List Data) (text : String),
      w.create csvFilePath = none → (∀ k, w.csvWriteErr k = none) →
      Event.csvAccepted text ∈ (saveToCSV w data).2 →
      lineCount text.data = data.length + 1 := by
  intro h
  have h1 := h demoWorld
    [{ FilePath := "d/a\nb.jpg", Latitude := "40 20 0 ", Longitude := "74 0 21 " }]
    "Image File Path,GPS Latitude,GPS Longitude\n\"d/a\nb.jpg\",40 20 0 ,74 0 21 \n"
    rfl (fun _ => rfl) (by decide)
  exact absurd h1 (by decide)

/-- C7, amended: when the file is created and every write succeeds, the text `saveToCSV`
writes is the literal header line `Image File Path,GPS Latitude,GPS Longitude` followed
by exactly one row per record, in order, with three columns, rows and columns being
delimited by the RFC 4180 rules (a line feed ends a row and a comma ends a column only
outside double quotes; inside a quoted field a doubled double quote stands for one):
read by these rules, with the contents kept verbatim, the text gives the header and then
the three fields of each record.  Its number of lines is `len(records) + 1` plus the
number of line feeds inside the fields, so it is `len(records) + 1` exactly when no field
holds a line feed, whatever else the fields hold. -/
theorem csv_report_rows (w : World) (data : List Data) (hc : w.create csvFilePath = none)
    (hw : ∀ k, w.csvWriteErr k = none) :
    saveToCSV w data =
      (.ret none, [.created csvFilePath, .stdout "CSV file created successfully!\n",
        .csvAccepted ⟨"Image File Path,GPS Latitude,GPS Longitude\n".data ++ rowsText data⟩]) ∧
    readCSV ("Image File Path,GPS Latitude,GPS Longitude\n".data ++ rowsText data) =
      ["Image File Path", "GPS Latitude", "GPS Longitude"]
        :: data.map (fun d => [d.FilePath, d.Latitude, d.Longitude]) ∧
    (readCSV ("Image File Path,GPS Latitude,GPS Longitude\n".data ++ rowsText data)).length =
      data.length + 1 ∧
    (∀ row ∈ readCSV ("Image File Path,GPS Latitude,GPS Longitude\n".data ++ rowsText data),
      row.length = 3) ∧
    lineCount ("Image File Path,GPS Latitude,GPS Longitude\n".data ++ rowsText data) =
      data.length + 1 + fieldLineFeeds data ∧
    (lineCount ("Image File Path,GPS Latitude,GPS Longitude\n".data ++ rowsText data) =
      data.length + 1 ↔ fieldLineFeeds data = 0) := by
  have hl : lineCount ("Image File Path,GPS Latitude,GPS Longitude\n".data ++ rowsText data) =
      data.length + 1 + fieldLineFeeds data := by
    have h1 := lineCount_rowsText data
    have h2 : lineCount "Image File Path,GPS Latitude,GPS Longitude\n".data = 1 := by decide
    unfold lineCount at h1 h2 ⊢
    rw [List.count_append, h1, h2]
    omega
  have hr : readCSV ("Image File Path,GPS Latitude,GPS Longitude\n".data ++ rowsText data) =
      ["Image File Path", "GPS Latitude", "GPS Longitude"]
        :: data.map (fun d => [d.FilePath, d.Latitude, d.Longitude]) := by
    have := readCSV_report data
    rw [csvWrite_header] at this
    exact this
  refine ⟨?_, hr, ?_, ?_, hl, ?_⟩
  · rw [saveToCSV_ok w data hc hw, csvWrite_header]
  · rw [hr]
    simp
  · rw [hr]
    intro row hrow
    rcases List.mem_cons.mp hrow with rfl | hrow
    · rfl
    · obtain ⟨d, _, rfl⟩ := List.mem_map.mp hrow
      rfl
  · rw [hl]
    omega

/-- C7, amended, for a record whose file path holds a comma and double quotes: the text
has two lines and reads back as the header and the record. -/
theorem csv_report_rows_witness :
    demoWorld.create csvFilePath = none ∧ (∀ k, demoWorld.csvWriteErr k = none) ∧
    readCSV ("Image File Path,GPS Latitude,GPS Longitude\n".data ++
        rowsText [Data.mk "d/a,\"b\".jpg" "40 20 0 " "74 0 21 "]) =
      [["Image File Path", "GPS Latitude", "GPS Longitude"],
        ["d/a,\"b\".jpg", "40 20 0 ", "74 0 21 "]] ∧
    lineCount ("Image File Path,GPS Latitude,GPS Longitude\n".data ++
        rowsText [Data.mk "d/a,\"b\".jpg" "40 20 0 " "74 0 21 "]) = 2 :=
  ⟨rfl, fun _ => rfl,
    (csv_report_rows demoWorld
      [Data.mk "d/a,\"b\".jpg" "40 20 0 " "74 0 21 "] rfl (fun _ => rfl)).2.1,
    by decide⟩

end ReadExif
